import Mathlib

/-!
# file-hub-go: content-addressed file store

A shallow embedding of the Go backend (`go-backend/api/file_handler.go`,
`go-backend/middleware/auth.go`, `go-backend/main.go`, `go-backend/models/file.go`).

* Go strings are Lean `String`s, manipulated through their character lists.
* Byte contents are lists of naturals (each below 256).
* The MongoDB collection is a list of `File` documents in insertion order, with the
  unique `_id` index enforced by `InsertOne`.
* The filesystem is an association list from paths to contents.
* Everything the handlers obtain from outside (random UUIDs, the clock, I/O failures)
  is an explicit field of the request.
* Library functions that are not part of the repository (`sha256`, the MongoDB regular
  expression engine, the JWT parser) are parameters; `filepath.Ext`, `filepath.Clean` and
  `filepath.Join` are modelled for Unix paths.
* Requests served concurrently are goroutines stepping on the shared store, one step per
  access to the collection or the disk, in the order a schedule gives.
-/

set_option linter.dupNamespace false

namespace FileHub

/-! ## Strings and bytes -/

/-- Byte contents. -/
abbrev Bytes := List Nat

/-- Go `strings.TrimPrefix(s, pre)`: `s` without the leading `pre`, or `s` itself when
`s` does not start with `pre`. -/
def TrimPrefix (s pre : String) : String :=
  if pre.data.isPrefixOf s.data then ⟨s.data.drop pre.data.length⟩ else s

/-- One lower-case hexadecimal digit. -/
def hexDigit (n : Nat) : Char :=
  if n < 10 then Char.ofNat (48 + n) else Char.ofNat (87 + n)

/-- The two hexadecimal digits `%x` prints for one byte. -/
def hexByte (b : Nat) : List Char :=
  [hexDigit (b / 16 % 16), hexDigit (b % 16)]

/-- Go `fmt.Sprintf("%x", bs)` on a byte slice. -/
def hexEncode (bs : Bytes) : String :=
  ⟨bs.flatMap hexByte⟩

/-- The characters a lower-case hexadecimal string is made of. -/
def hexAlphabet : List Char := "0123456789abcdef".data

/-! ## Content hasher -/

/-- An `io.ReadSeeker`: the bytes behind it, the read position, and whether its
`Seek` or `Read` calls fail. -/
structure ReadSeeker where
  data : Bytes
  pos : Nat
  seekErr : Bool
  readErr : Bool
deriving DecidableEq, Repr

/-- The call `file.Seek(0, io.SeekStart)`. -/
def ReadSeeker.seekStart (f : ReadSeeker) : Except String ReadSeeker :=
  if f.seekErr then .error "seek" else .ok { f with pos := 0 }

/-- The call `io.Copy(dst, file)` seen from the source: the bytes from the read position to the
end are handed over and the position moves to the end. -/
def ReadSeeker.readAll (f : ReadSeeker) : Except String (Bytes × ReadSeeker) :=
  if f.readErr then .error "read" else .ok (f.data.drop f.pos, { f with pos := f.data.length })

/-- The function `calculateFileHash`: rewind, feed everything to the hasher, rewind again, print the
digest in hexadecimal. `sum` is the digest function of the hasher (`sha256`). -/
def calculateFileHash (sum : Bytes → Bytes) (file : ReadSeeker) :
    Except String (String × ReadSeeker) :=
  match file.seekStart with
  | .error e => .error e
  | .ok f1 =>
    match f1.readAll with
    | .error e => .error e
    | .ok (written, f2) =>
      match f2.seekStart with
      | .error e => .error e
      | .ok f3 => .ok (hexEncode (sum written), f3)

/-- The digest string the service stores for a content. -/
def digest (sum : Bytes → Bytes) (content : Bytes) : String :=
  hexEncode (sum content)

/-! ## Data model -/

/-- The metadata document of one logical upload (`models.File`). `Size` is an `int64`,
`UploadedAt` is the BSON date-time: milliseconds since the Unix epoch, UTC. -/
structure File where
  ID : String
  File : String
  OriginalFilename : String
  FileType : String
  Size : Int
  Hash : String
  UploadedAt : Int
deriving DecidableEq, Repr

/-- The fields of `config.AppConfig` the handlers read. -/
structure Config where
  UploadDir : String
  MaxUploadSize : Int
  JWTSecret : String
deriving DecidableEq, Repr

/-- The filesystem: paths with their contents. -/
abbrev FS := List (String × Bytes)

/-- The content of the file at `p`, if there is one. -/
def FS.read (fs : FS) (p : String) : Option Bytes :=
  (fs.find? (fun e => e.1 = p)).map (fun e => e.2)

/-- A file at `p` holding `c` (`os.Create` followed by writes): a file that was there is
truncated and replaced. -/
def FS.writeFile (fs : FS) (p : String) (c : Bytes) : FS :=
  (p, c) :: fs.filter (fun e => e.1 ≠ p)

/-- The filesystem without the file at `p`. -/
def FS.remove (fs : FS) (p : String) : FS :=
  fs.filter (fun e => e.1 ≠ p)

/-- The call `os.Remove(p)`: it fails when there is no file at `p` or when the operating system
refuses (`fail`); the file is gone only when it succeeds. The flag tells whether an
error was returned. -/
def osRemove (fail : Bool) (fs : FS) (p : String) : FS × Bool :=
  if fail then (fs, true)
  else if (fs.read p).isSome then (fs.remove p, false)
  else (fs, true)

/-- The shared mutable state: the `files` collection and the disk. -/
structure Store where
  db : List File
  fs : FS
deriving DecidableEq, Repr

/-- The store before any request. -/
def Store.empty : Store := { db := [], fs := [] }

/-! ## The collection operations the handlers use -/

/-- The query `FindOne(ctx, bson.M{"hash": h})`: the first document with that hash. -/
def findOneByHash (db : List File) (h : String) : Option File :=
  db.find? (fun f => f.Hash = h)

/-- The query `FindOne(ctx, bson.M{"_id": id})`. -/
def findOneByID (db : List File) (id : String) : Option File :=
  db.find? (fun f => f.ID = id)

/-- The operation `InsertOne`: refused when a document with the same `_id` exists (unique index). -/
def insertOne (db : List File) (f : File) : Option (List File) :=
  if db.any (fun g => g.ID = f.ID) then none else some (db ++ [f])

/-- The operation `DeleteOne(ctx, bson.M{"_id": id})`: removes the first document with that `_id`. -/
def deleteOne (db : List File) (id : String) : List File :=
  db.eraseP (fun f => f.ID = id)

/-- The query `CountDocuments(ctx, bson.M{"hash": h})`. -/
def countDocuments (db : List File) (h : String) : Nat :=
  db.countP (fun f => f.Hash = h)

/-! ## HTTP responses -/

/-- What a handler writes as the body. -/
inductive Body where
  | empty
  | error (msg : String)
  | file (f : File)
  | files (fs : List File)
deriving DecidableEq, Repr

/-- Status code and body. -/
structure Response where
  status : Nat
  body : Body
deriving DecidableEq, Repr

/-- The helper `http.Error(w, msg, code)`. -/
def httpError (msg : String) (code : Nat) : Response := { status := code, body := .error msg }

/-! ## Paths -/

/-- Go `filepath.Ext` scanning backwards over the reversed name: stop with the empty
extension at a separator, stop with the suffix at the first dot met. -/
def extScan : List Char → List Char → List Char
  | [], _ => []
  | c :: cs, acc =>
    if c = '/' then [] else if c = '.' then '.' :: acc else extScan cs (c :: acc)

/-- Go `filepath.Ext(path)`: the suffix starting at the last dot of the last element. -/
def filepathExt (path : String) : String :=
  ⟨extScan path.data.reverse []⟩

/-- The elements of a path: the pieces between its slashes (Unix separator). -/
def splitSlash : List Char → List (List Char)
  | [] => [[]]
  | c :: cs =>
    if c = '/' then [] :: splitSlash cs
    else
      match splitSlash cs with
      | [] => [[c]]
      | e :: es => (c :: e) :: es

/-- One path element through Go `filepath.Clean`; the elements kept so far are held last
first. Empty elements and `.` are dropped; `..` removes the element before it, is
dropped at the root, and is kept at the start of a relative path. -/
def cleanStep (rooted : Bool) (stack : List (List Char)) (e : List Char) : List (List Char) :=
  if e = [] ∨ e = ['.'] then stack
  else if e = ['.', '.'] then
    match stack with
    | [] => if rooted then [] else [e]
    | top :: rest => if top = ['.', '.'] then e :: stack else rest
  else e :: stack

/-- Path elements put together with one slash between them. -/
def joinSlash : List (List Char) → List Char
  | [] => []
  | [e] => e
  | e :: es => e ++ '/' :: joinSlash es

/-- Go `filepath.Clean(path)` on Unix: the shortest equivalent path; `.` for the empty
path, a leading slash kept for a rooted one. -/
def filepathClean (path : String) : String :=
  if path.data = [] then "."
  else
    let rooted := decide (path.data.head? = some '/')
    let out := joinSlash ((splitSlash path.data).foldl (cleanStep rooted) []).reverse
    if rooted then ⟨'/' :: out⟩ else if out = [] then "." else ⟨out⟩

/-- Go `filepath.Join(dir, name)`: the elements from the first non-empty one on, separated
by a slash, and the result cleaned; the empty string when both are empty. -/
def filepathJoin (dir name : String) : String :=
  if dir ≠ "" then filepathClean (dir ++ "/" ++ name)
  else if name ≠ "" then filepathClean name
  else ""

/-- The path of the entry `name` of the directory with the clean path `dir`. -/
def dirEntry (dir name : String) : String :=
  if dir = "." then name else if dir = "/" then "/" ++ name else dir ++ "/" ++ name

/-- The format of `uuid.New().String()`: 36 characters, lower-case hexadecimal digits with
dashes after the 8th, 13th, 18th and 23rd. -/
def isUUID (u : String) : Bool :=
  decide (u.data.length = 36)
    && u.data.all (fun c => decide (c ∈ hexAlphabet) || decide (c = '-'))
    && decide (u.data.get? 8 = some '-') && decide (u.data.get? 13 = some '-')
    && decide (u.data.get? 18 = some '-') && decide (u.data.get? 23 = some '-')

/-! ## UploadFile -/

/-- The `multipart.FileHeader` of the uploaded part. -/
structure FileHeader where
  Filename : String
  ContentType : String
  Size : Int
deriving DecidableEq, Repr

/-- One upload request together with everything the handler draws from outside while
serving it. -/
structure UploadReq where
  /-- Whether `r.ParseMultipartForm` returns an error. -/
  parseErr : Bool
  /-- The result of `r.FormFile("file")`; `none` when it returns an error. -/
  formFile : Option (FileHeader × ReadSeeker)
  /-- The hash lookup fails for a reason other than "no document" (time-out, lost
  connection). -/
  findErr : Bool
  /-- Whether `os.Create` fails. -/
  createErr : Bool
  /-- When set, `io.Copy` to the destination fails after writing that many bytes. -/
  copyErr : Option Nat
  /-- Whether `InsertOne` fails for a reason other than a duplicate `_id`. -/
  insertErr : Bool
  /-- The UUID drawn for the name of the physical file. -/
  uuidFile : String
  /-- The UUID drawn for the `_id` of the record. -/
  uuidID : String
  /-- The value of `time.Now()`, in milliseconds. -/
  now : Int
deriving DecidableEq, Repr

/-- The path `UploadFile` creates for new content. -/
def uploadPath (cfg : Config) (uuid filename : String) : String :=
  filepathJoin cfg.UploadDir (uuid ++ filepathExt filename)

/-- The `models.File` literal of `UploadFile`: the id is a fresh UUID, the name, type and
size come from the part header, the time from the clock. -/
def newRecord (q : UploadReq) (handler : FileHeader) (file fileHash : String) : File :=
  { ID := q.uuidID
    File := file
    OriginalFilename := handler.Filename
    FileType := handler.ContentType
    Size := handler.Size
    Hash := fileHash
    UploadedAt := q.now }

/-- The tail of `UploadFile`: insert the record and answer 201 with it, or 500 when the
insertion fails. -/
def insertMetadata (insertErr : Bool) (s : Store) (newFile : File) : Store × Response :=
  if insertErr then (s, httpError "Could not save file metadata" 500)
  else
    match insertOne s.db newFile with
    | none => (s, httpError "Could not save file metadata" 500)
    | some db1 => ({ s with db := db1 }, { status := 201, body := .file newFile })

/-- The handler `UploadFile`: hash the part, reuse the file of a record with the same
hash or write a new one, then insert the record. -/
def UploadFile (cfg : Config) (sum : Bytes → Bytes) (s : Store) (q : UploadReq) :
    Store × Response :=
  if q.parseErr then
    let maxSizeMB := (cfg.MaxUploadSize.tdiv 1024).tdiv 1024
    (s, httpError ("The uploaded file is too big. Please choose a file less than "
      ++ toString maxSizeMB ++ "MB.") 400)
  else
    match q.formFile with
    | none => (s, httpError "Invalid file" 400)
    | some (handler, file) =>
      match calculateFileHash sum file with
      | .error _ => (s, httpError "Could not calculate file hash" 500)
      | .ok (fileHash, file) =>
        match (if q.findErr then none else findOneByHash s.db fileHash) with
        | some existingFile =>
          insertMetadata q.insertErr s (newRecord q handler existingFile.File fileHash)
        | none =>
          let filePath := uploadPath cfg q.uuidFile handler.Filename
          if q.createErr then (s, httpError "Could not save file" 500)
          else
            match file.readAll with
            | .error _ =>
              ({ s with fs := s.fs.writeFile filePath [] }, httpError "Could not save file" 500)
            | .ok (bytes, _) =>
              match q.copyErr with
              | some n =>
                ({ s with fs := s.fs.writeFile filePath (bytes.take n) },
                  httpError "Could not save file" 500)
              | none =>
                insertMetadata q.insertErr { s with fs := s.fs.writeFile filePath bytes }
                  (newRecord q handler ("/" ++ filePath) fileHash)

/-! ## DeleteFile -/

/-- One delete request with the failures that may strike while it is served. -/
structure DeleteReq where
  /-- The value of `chi.URLParam(r, "id")`. -/
  id : String
  /-- The lookup by `_id` fails although the document may exist. -/
  findErr : Bool
  /-- Whether `DeleteOne` fails. -/
  deleteErr : Bool
  /-- Whether `CountDocuments` fails. -/
  countErr : Bool
  /-- Whether `os.Remove` is refused by the operating system. -/
  removeErr : Bool
deriving DecidableEq, Repr

/-- The handler `DeleteFile`: look the record up, delete it, count the records left with
its hash and remove the physical file when there is none. -/
def DeleteFile (s : Store) (q : DeleteReq) : Store × Response :=
  if q.id = "" then (s, httpError "File ID is required" 400)
  else
    match (if q.findErr then none else findOneByID s.db q.id) with
    | none => (s, httpError "File not found" 404)
    | some fileToDelete =>
      if q.deleteErr then (s, httpError "Failed to delete file metadata" 500)
      else
        let s1 : Store := { s with db := deleteOne s.db q.id }
        if q.countErr then
          (s1, { status := 204, body := .empty })
        else if countDocuments s1.db fileToDelete.Hash = 0 then
          let physicalPath := TrimPrefix fileToDelete.File "/"
          ({ s1 with fs := (osRemove q.removeErr s1.fs physicalPath).1 },
            { status := 204, body := .empty })
        else
          (s1, { status := 204, body := .empty })

/-! ## GetFiles: query parameters, dates and the filter document -/

/-- Whether a character is a decimal digit. -/
def isDigit (c : Char) : Bool :=
  decide ('0' ≤ c) && decide (c ≤ '9')

/-- The value of a decimal digit. -/
def digitVal (c : Char) : Nat :=
  c.toNat - 48

/-- The number written by a list of decimal digits; `none` on an empty list or on a
character that is not a digit. -/
def parseDigits (cs : List Char) : Option Nat :=
  if cs = [] then none
  else if cs.all isDigit then some (cs.foldl (fun n c => 10 * n + digitVal c) 0)
  else none

/-- Go `strconv.ParseInt(s, 10, 64)`: an optional sign and decimal digits, in the range of
`int64`; `none` stands for a returned error. -/
def ParseInt (s : String) : Option Int :=
  match s.data with
  | [] => none
  | c :: cs =>
    if c = '-' then
      match parseDigits cs with
      | some n => if n ≤ 2 ^ 63 then some (-(n : Int)) else none
      | none => none
    else
      match parseDigits (if c = '+' then cs else c :: cs) with
      | some n => if n < 2 ^ 63 then some (n : Int) else none
      | none => none

/-- A `time.Time` at 00:00:00 UTC, kept as the year, month and day handed to Go
`time.Date`; the day may exceed the length of the month, `time.Date` normalises it. -/
structure Time where
  year : Nat
  month : Nat
  day : Nat
deriving DecidableEq, Repr

/-- Leap years of the Gregorian calendar. -/
def isLeap (year : Nat) : Bool :=
  decide (year % 4 = 0) && (decide (year % 100 ≠ 0) || decide (year % 400 = 0))

/-- The number of days of a month. -/
def daysIn (month year : Nat) : Nat :=
  if month = 2 then (if isLeap year then 29 else 28)
  else if month = 4 ∨ month = 6 ∨ month = 9 ∨ month = 11 then 30
  else 31

/-- The number of days of a non-leap year before the first of a month (January is 1). -/
def daysBefore (month : Nat) : Nat :=
  [0, 31, 59, 90, 120, 151, 181, 212, 243, 273, 304, 334].getD (month - 1) 0

/-- The number of days from 1970-01-01 to the first of January of a year. -/
def daysSinceEpoch (year : Nat) : Int :=
  365 * (year : Int) + ((year + 3) / 4 : Nat) - ((year + 99) / 100 : Nat)
    + ((year + 399) / 400 : Nat) - 719528

/-- The day number (days since 1970-01-01) Go `time.Date` computes: months beyond
December roll into the year, then the days are counted linearly. -/
def Time.unixDay (t : Time) : Int :=
  let year := t.year + (t.month - 1) / 12
  let month := (t.month - 1) % 12 + 1
  daysSinceEpoch year + daysBefore month
    + (if isLeap year && decide (3 ≤ month) then 1 else 0) + ((t.day : Int) - 1)

/-- The instant in milliseconds since the Unix epoch, as stored in a BSON date-time. -/
def Time.UnixMilli (t : Time) : Int :=
  t.unixDay * 86400000

/-- Go `t.AddDate(years, months, days)`: the fields are added and handed to `time.Date`. -/
def Time.AddDate (t : Time) (years months days : Nat) : Time :=
  { year := t.year + years, month := t.month + months, day := t.day + days }

/-- Go `time.Parse("2006-01-02", value)`: four digits, a dash, two digits, a dash, two
digits, nothing else; the month in 1..12 and the day within the month. -/
def timeParse (value : String) : Option Time :=
  match value.data with
  | [y1, y2, y3, y4, s1, m1, m2, s2, d1, d2] =>
    if [y1, y2, y3, y4, m1, m2, d1, d2].all isDigit && decide (s1 = '-') && decide (s2 = '-') then
      let year := 1000 * digitVal y1 + 100 * digitVal y2 + 10 * digitVal y3 + digitVal y4
      let month := 10 * digitVal m1 + digitVal m2
      let day := 10 * digitVal d1 + digitVal d2
      if 1 ≤ month ∧ month ≤ 12 ∧ 1 ≤ day ∧ day ≤ daysIn month year then
        some { year := year, month := month, day := day }
      else none
    else none
  | _ => none

/-- The calendar day after a date. -/
def nextDay (t : Time) : Time :=
  if t.day < daysIn t.month t.year then { t with day := t.day + 1 }
  else if t.month < 12 then { t with month := t.month + 1, day := 1 }
  else { year := t.year + 1, month := 1, day := 1 }

/-- A BSON value: of a document field or of a query operand. -/
inductive Value where
  | str (s : String)
  | int (n : Int)
  | date (ms : Int)
deriving DecidableEq, Repr

/-- The query operators `GetFiles` uses. -/
inductive Cond where
  | regex (pattern options : String)
  | gte (v : Value)
  | lte (v : Value)
  | lt (v : Value)
deriving DecidableEq, Repr

/-- A `bson.D`: an ordered list of elements, keys may repeat. -/
abbrev Filter := List (String × Cond)

/-- The value of a document field by its `bson` key. -/
def fieldValue (f : File) (key : String) : Option Value :=
  if key = "_id" then some (.str f.ID)
  else if key = "file" then some (.str f.File)
  else if key = "original_filename" then some (.str f.OriginalFilename)
  else if key = "file_type" then some (.str f.FileType)
  else if key = "size" then some (.int f.Size)
  else if key = "hash" then some (.str f.Hash)
  else if key = "uploaded_at" then some (.date f.UploadedAt)
  else none

/-- Whether a field value satisfies an operator. Comparisons hold only between values
of the same type; `regexMatch pattern options subject` is the regular expression
engine of the database. -/
def Cond.holds (regexMatch : String → String → String → Bool) : Cond → Value → Bool
  | .regex p o, .str s => regexMatch p o s
  | .gte (.int a), .int n => decide (a ≤ n)
  | .gte (.date a), .date n => decide (a ≤ n)
  | .lte (.int a), .int n => decide (n ≤ a)
  | .lte (.date a), .date n => decide (n ≤ a)
  | .lt (.int a), .int n => decide (n < a)
  | .lt (.date a), .date n => decide (n < a)
  | _, _ => false

/-- Whether a document satisfies one element of the filter. -/
def matchesElem (regexMatch : String → String → String → Bool) (f : File)
    (e : String × Cond) : Bool :=
  match fieldValue f e.1 with
  | some v => e.2.holds regexMatch v
  | none => false

/-- Whether a document matches a filter: every element of the document must hold. -/
def matchesFilter (regexMatch : String → String → String → Bool) (filter : Filter)
    (f : File) : Bool :=
  filter.all (matchesElem regexMatch f)

/-- One listing request: the values `params.Get` returns (empty when the parameter is
absent) and the failures of the database. -/
structure ListReq where
  search : String
  file_type : String
  size_min : String
  size_max : String
  uploaded_after : String
  uploaded_before : String
  /-- Whether `Find` fails. -/
  findErr : Bool
  /-- Whether `cursor.All` fails. -/
  decodeErr : Bool
deriving DecidableEq, Repr

/-- The filter document `GetFiles` builds from the query parameters. -/
def buildFilter (q : ListReq) : Filter :=
  let filter : Filter := []
  let filter :=
    if q.search ≠ "" then filter ++ [("original_filename", Cond.regex q.search "i")] else filter
  let filter :=
    if q.file_type ≠ "" then filter ++ [("file_type", Cond.regex q.file_type "i")] else filter
  let filter :=
    if q.size_min ≠ "" then
      match ParseInt q.size_min with
      | some sizeMin => filter ++ [("size", Cond.gte (.int sizeMin))]
      | none => filter
    else filter
  let filter :=
    if q.size_max ≠ "" then
      match ParseInt q.size_max with
      | some sizeMax => filter ++ [("size", Cond.lte (.int sizeMax))]
      | none => filter
    else filter
  let filter :=
    if q.uploaded_after ≠ "" then
      match timeParse q.uploaded_after with
      | some t => filter ++ [("uploaded_at", Cond.gte (.date t.UnixMilli))]
      | none => filter
    else filter
  let filter :=
    if q.uploaded_before ≠ "" then
      match timeParse q.uploaded_before with
      | some t => filter ++ [("uploaded_at", Cond.lt (.date (t.AddDate 0 0 1).UnixMilli))]
      | none => filter
    else filter
  filter

/-- The sort option of the listing: `uploaded_at` descending. -/
def sortByUploadedAtDesc (files : List File) : List File :=
  files.insertionSort (fun a b => b.UploadedAt ≤ a.UploadedAt)

/-- The handler `GetFiles`: build the filter, find the matching documents sorted by
upload time, newest first, and answer with them. -/
def GetFiles (regexMatch : String → String → String → Bool) (s : Store) (q : ListReq) :
    Store × Response :=
  let filter := buildFilter q
  if q.findErr then (s, httpError "Failed to fetch files from database" 500)
  else if q.decodeErr then (s, httpError "Failed to decode files" 500)
  else
    (s, { status := 200
          body := .files (sortByUploadedAtDesc (s.db.filter (matchesFilter regexMatch filter))) })

/-! ## Authentication middleware and the protected routes -/

/-- What `jwt.ParseWithClaims` hands back: whether it returned an error, the `Valid`
flag of the token, and the user name of the claims. -/
structure Token where
  err : Bool
  Valid : Bool
  Username : String
deriving DecidableEq, Repr

/-- An HTTP request as the handlers see it. -/
structure Request where
  /-- The value of `r.Header.Get("Authorization")`, empty when the header is absent. -/
  authorization : String
  /-- The value stored under `"username"` in the request context. -/
  username : Option String
  /-- The request read as a listing. -/
  list : ListReq
  /-- The request read as an upload. -/
  upload : UploadReq
  /-- The request read as a delete. -/
  delete : DeleteReq
deriving DecidableEq, Repr

/-- An `http.Handler` acting on the store. -/
abbrev Handler := Request → Store → Store × Response

/-- The middleware `JwtAuthentication`: 401 without a header, 401 when the token does
not parse or is not valid, otherwise the next handler with the user name in the
context. `parseWithClaims token key` is the JWT library. -/
def JwtAuthentication (cfg : Config) (parseWithClaims : String → String → Token)
    (next : Handler) : Handler :=
  fun r s =>
    let authHeader := r.authorization
    if authHeader = "" then (s, httpError "Authorization header required" 401)
    else
      let tokenStr := TrimPrefix authHeader "Bearer "
      let token := parseWithClaims tokenStr cfg.JWTSecret
      if token.err || !token.Valid then (s, httpError "Invalid token" 401)
      else next { r with username := some token.Username } s

/-- A route of the router: method, pattern and handler. -/
structure Route where
  method : String
  pattern : String
  handler : Handler

/-- The file routes registered in the protected group of `main`. -/
def fileRoutes (cfg : Config) (sum : Bytes → Bytes)
    (regexMatch : String → String → String → Bool) : List Route :=
  [ { method := "GET", pattern := "/api/files/"
      handler := fun r s => GetFiles regexMatch s r.list },
    { method := "POST", pattern := "/api/files/"
      handler := fun r s => UploadFile cfg sum s r.upload },
    { method := "DELETE", pattern := "/api/files/{id}/"
      handler := fun r s => DeleteFile s r.delete } ]

/-- The protected group of `main`: `r.Use(middleware.JwtAuthentication)` wraps every
handler registered in the group. -/
def protectedRoutes (cfg : Config) (sum : Bytes → Bytes)
    (regexMatch : String → String → String → Bool)
    (parseWithClaims : String → String → Token) : List Route :=
  (fileRoutes cfg sum regexMatch).map
    (fun rt => { rt with handler := JwtAuthentication cfg parseWithClaims rt.handler })

/-! ## Runs of requests -/

/-- A request to the file service that changes the store. -/
inductive Req where
  | upload (q : UploadReq)
  | delete (q : DeleteReq)
deriving DecidableEq, Repr

/-- The store after serving one request. -/
def step (cfg : Config) (sum : Bytes → Bytes) (s : Store) : Req → Store
  | .upload q => (UploadFile cfg sum s q).1
  | .delete q => (DeleteFile s q).1

/-- The store after serving a sequence of requests one at a time. -/
def run (cfg : Config) (sum : Bytes → Bytes) (s : Store) (reqs : List Req) : Store :=
  reqs.foldl (step cfg sum) s

/-- The UUIDs an upload draws are fresh: the path built from the first names no file on
disk and the second is the `_id` of no record. -/
def UploadReq.fresh (cfg : Config) (s : Store) (q : UploadReq) : Bool :=
  match q.formFile with
  | none => true
  | some (handler, _) =>
    (s.fs.read (uploadPath cfg q.uuidFile handler.Filename)).isNone
      && !(s.db.any (fun f => f.ID = q.uuidID))

/-- No input or output operation of an upload fails. -/
def UploadReq.noFault (q : UploadReq) : Bool :=
  !q.parseErr
    && (match q.formFile with
        | none => false
        | some (_, file) => !file.seekErr && !file.readErr)
    && !q.findErr && !q.createErr && q.copyErr.isNone && !q.insertErr

/-- No database or filesystem operation of a delete fails. -/
def DeleteReq.noFault (q : DeleteReq) : Bool :=
  !q.findErr && !q.deleteErr && !q.countErr && !q.removeErr

/-- Every upload of the run draws fresh UUIDs in the state it is served in. -/
def freshRun (cfg : Config) (sum : Bytes → Bytes) : Store → List Req → Bool
  | _, [] => true
  | s, .upload q :: rest => q.fresh cfg s && freshRun cfg sum (step cfg sum s (.upload q)) rest
  | s, .delete q :: rest => freshRun cfg sum (step cfg sum s (.delete q)) rest

/-- No operation of a request fails. -/
def Req.noFault : Req → Bool
  | .upload q => q.noFault
  | .delete q => q.noFault

/-- Every request of the run either meets no failing operation or leaves the store as it
found it. -/
def cleanRun (cfg : Config) (sum : Bytes → Bytes) : Store → List Req → Bool
  | _, [] => true
  | s, req :: rest =>
    (req.noFault || decide (step cfg sum s req = s))
      && cleanRun cfg sum (step cfg sum s req) rest

/-! ## Reference integrity -/

/-- The digests of the physical files on disk. -/
def fileDigests (sum : Bytes → Bytes) (s : Store) : List String :=
  s.fs.map (fun e => digest sum e.2)

/-- The hashes of the records of the metadata store. -/
def recordHashes (s : Store) : List String :=
  s.db.map (fun r => r.Hash)

/-- The physical files no record points to. -/
def orphans (s : Store) : List String :=
  (s.fs.filter (fun e => !(s.db.any (fun r => TrimPrefix r.File "/" = e.1)))).map (fun e => e.1)

/-- The records whose physical file is missing. -/
def dangling (s : Store) : List File :=
  s.db.filter (fun r => (s.fs.read (TrimPrefix r.File "/")).isNone)

/-- Every record points to a file on disk whose digest is the hash of the record. -/
def Consistent (sum : Bytes → Bytes) (s : Store) : Prop :=
  ∀ r ∈ s.db, ∃ c, s.fs.read (TrimPrefix r.File "/") = some c ∧ digest sum c = r.Hash

/-- Every file on disk is pointed to by a record carrying its digest. -/
def NoOrphan (sum : Bytes → Bytes) (s : Store) : Prop :=
  ∀ e ∈ s.fs, ∃ r ∈ s.db, TrimPrefix r.File "/" = e.1 ∧ r.Hash = digest sum e.2

/-- Records with the same hash point to the same file. -/
def OnePath (s : Store) : Prop :=
  ∀ r1 ∈ s.db, ∀ r2 ∈ s.db, r1.Hash = r2.Hash → r1.File = r2.File

/-- The record ids are pairwise distinct. -/
def UniqueIDs (s : Store) : Prop :=
  (s.db.map (fun f => f.ID)).Nodup

/-- Reference integrity of a store: no dangling reference, no orphan file, one file per
digest, distinct ids. -/
def Integrity (sum : Bytes → Bytes) (s : Store) : Prop :=
  Consistent sum s ∧ NoOrphan sum s ∧ OnePath s ∧ UniqueIDs s

/-! ## Outcomes of the two mutating handlers -/

/-- The shapes of the store and response `UploadFile` can end with. -/
inductive UploadOutcome (cfg : Config) (sum : Bytes → Bytes) (s : Store) (q : UploadReq) :
    Store × Response → Prop where
  | rejected (resp : Response) (h : resp.status ≠ 201) : UploadOutcome cfg sum s q (s, resp)
  | partialWrite (hd : FileHeader) (file : ReadSeeker) (c : Bytes) (resp : Response)
      (hf : q.formFile = some (hd, file)) (h : resp.status ≠ 201) :
      UploadOutcome cfg sum s q
        ({ s with fs := s.fs.writeFile (uploadPath cfg q.uuidFile hd.Filename) c }, resp)
  | duplicate (hd : FileHeader) (file : ReadSeeker) (e rec : File)
      (hf : q.formFile = some (hd, file))
      (he : findOneByHash s.db (digest sum file.data) = some e) (hq : q.findErr = false)
      (hfile : rec.File = e.File) (hhash : rec.Hash = digest sum file.data)
      (hid : rec.ID = q.uuidID) (hfresh : ∀ g ∈ s.db, g.ID ≠ rec.ID) :
      UploadOutcome cfg sum s q
        ({ s with db := s.db ++ [rec] }, { status := 201, body := .file rec })
  | created (hd : FileHeader) (file : ReadSeeker) (rec : File)
      (hf : q.formFile = some (hd, file))
      (he : q.findErr = true ∨ findOneByHash s.db (digest sum file.data) = none)
      (hfile : rec.File = "/" ++ uploadPath cfg q.uuidFile hd.Filename)
      (hhash : rec.Hash = digest sum file.data)
      (hid : rec.ID = q.uuidID) (hfresh : ∀ g ∈ s.db, g.ID ≠ rec.ID) :
      UploadOutcome cfg sum s q
        ({ db := s.db ++ [rec],
           fs := s.fs.writeFile (uploadPath cfg q.uuidFile hd.Filename) file.data },
          { status := 201, body := .file rec })

/-- The shapes of the store and response `DeleteFile` can end with. -/
inductive DeleteOutcome (s : Store) (q : DeleteReq) : Store × Response → Prop where
  | refused (resp : Response) (h : resp.status ≠ 204) : DeleteOutcome s q (s, resp)
  | kept (r : File) (hid : q.id ≠ "") (hq : q.findErr = false)
      (hr : findOneByID s.db q.id = some r)
      (h : q.countErr = true ∨ countDocuments (deleteOne s.db q.id) r.Hash ≠ 0) :
      DeleteOutcome s q ({ s with db := deleteOne s.db q.id }, { status := 204, body := .empty })
  | reclaimed (r : File) (hid : q.id ≠ "") (hq : q.findErr = false)
      (hr : findOneByID s.db q.id = some r) (hc : q.countErr = false)
      (h : countDocuments (deleteOne s.db q.id) r.Hash = 0) :
      DeleteOutcome s q
        ({ db := deleteOne s.db q.id,
           fs := (osRemove q.removeErr s.fs (TrimPrefix r.File "/")).1 },
          { status := 204, body := .empty })

/-! ## Requests served concurrently

Each request is served by its own goroutine. A thread is a request together with the
point its handler has reached; one step of a thread is one access of the handler to the
collection or to the disk, together with the local computation leading to it. -/

/-- The point a goroutine serving `UploadFile` has reached. -/
inductive UploadPC where
  /-- Before the form is parsed, the part hashed and the hash looked up. -/
  | start
  /-- No record with the hash was found; `os.Create` comes next. -/
  | create (handler : FileHeader) (file : ReadSeeker) (fileHash : String)
  /-- The destination exists; `io.Copy` comes next. -/
  | copy (handler : FileHeader) (file : ReadSeeker) (fileHash : String)
  /-- The record is built; `InsertOne` comes next. -/
  | insert (newFile : File)
  /-- The response is written. -/
  | done (resp : Response)
deriving DecidableEq, Repr

/-- The point a goroutine serving `DeleteFile` has reached. -/
inductive DeletePC where
  /-- Before the lookup by id. -/
  | start
  /-- The record was found; `DeleteOne` comes next. -/
  | delete (fileToDelete : File)
  /-- The record is deleted; `CountDocuments` comes next. -/
  | count (fileToDelete : File)
  /-- No record with the hash is left; `os.Remove` comes next. -/
  | remove (fileToDelete : File)
  /-- The response is written. -/
  | done (resp : Response)
deriving DecidableEq, Repr

/-- One step of a goroutine serving `UploadFile`. -/
def uploadStep (cfg : Config) (sum : Bytes → Bytes) (q : UploadReq) (s : Store) :
    UploadPC → Store × UploadPC
  | .start =>
    if q.parseErr then
      let maxSizeMB := (cfg.MaxUploadSize.tdiv 1024).tdiv 1024
      (s, .done (httpError ("The uploaded file is too big. Please choose a file less than "
        ++ toString maxSizeMB ++ "MB.") 400))
    else
      match q.formFile with
      | none => (s, .done (httpError "Invalid file" 400))
      | some (handler, file) =>
        match calculateFileHash sum file with
        | .error _ => (s, .done (httpError "Could not calculate file hash" 500))
        | .ok (fileHash, file) =>
          match (if q.findErr then none else findOneByHash s.db fileHash) with
          | some existingFile =>
            (s, .insert (newRecord q handler existingFile.File fileHash))
          | none => (s, .create handler file fileHash)
  | .create handler file fileHash =>
    if q.createErr then (s, .done (httpError "Could not save file" 500))
    else
      ({ s with fs := s.fs.writeFile (uploadPath cfg q.uuidFile handler.Filename) [] },
        .copy handler file fileHash)
  | .copy handler file fileHash =>
    let filePath := uploadPath cfg q.uuidFile handler.Filename
    match file.readAll with
    | .error _ => (s, .done (httpError "Could not save file" 500))
    | .ok (bytes, _) =>
      match q.copyErr with
      | some n =>
        ({ s with fs := s.fs.writeFile filePath (bytes.take n) },
          .done (httpError "Could not save file" 500))
      | none =>
        ({ s with fs := s.fs.writeFile filePath bytes },
          .insert (newRecord q handler ("/" ++ filePath) fileHash))
  | .insert newFile =>
    ((insertMetadata q.insertErr s newFile).1, .done (insertMetadata q.insertErr s newFile).2)
  | .done resp => (s, .done resp)

/-- One step of a goroutine serving `DeleteFile`. -/
def deleteStep (q : DeleteReq) (s : Store) : DeletePC → Store × DeletePC
  | .start =>
    if q.id = "" then (s, .done (httpError "File ID is required" 400))
    else
      match (if q.findErr then none else findOneByID s.db q.id) with
      | none => (s, .done (httpError "File not found" 404))
      | some fileToDelete => (s, .delete fileToDelete)
  | .delete fileToDelete =>
    if q.deleteErr then (s, .done (httpError "Failed to delete file metadata" 500))
    else ({ s with db := deleteOne s.db q.id }, .count fileToDelete)
  | .count fileToDelete =>
    if q.countErr then (s, .done { status := 204, body := .empty })
    else if countDocuments s.db fileToDelete.Hash = 0 then (s, .remove fileToDelete)
    else (s, .done { status := 204, body := .empty })
  | .remove fileToDelete =>
    ({ s with fs := (osRemove q.removeErr s.fs (TrimPrefix fileToDelete.File "/")).1 },
      .done { status := 204, body := .empty })
  | .done resp => (s, .done resp)

/-- A goroutine serving a request. -/
inductive Thread where
  | upload (q : UploadReq) (pc : UploadPC)
  | delete (q : DeleteReq) (pc : DeletePC)
deriving DecidableEq, Repr

/-- The goroutine started for a request. -/
def Thread.start : Req → Thread
  | .upload q => .upload q .start
  | .delete q => .delete q .start

/-- One step of a goroutine on the shared store. -/
def Thread.step (cfg : Config) (sum : Bytes → Bytes) (s : Store) : Thread → Store × Thread
  | .upload q pc => ((uploadStep cfg sum q s pc).1, .upload q (uploadStep cfg sum q s pc).2)
  | .delete q pc => ((deleteStep q s pc).1, .delete q (deleteStep q s pc).2)

/-- The response of a goroutine that has finished. -/
def Thread.response : Thread → Option Response
  | .upload _ (.done resp) => some resp
  | .delete _ (.done resp) => some resp
  | _ => none

/-- A goroutine taking a number of steps in a row. -/
def Thread.steps (cfg : Config) (sum : Bytes → Bytes) : Nat → Store → Thread → Store × Thread
  | 0, s, t => (s, t)
  | n + 1, s, t => Thread.steps cfg sum n (t.step cfg sum s).1 (t.step cfg sum s).2

/-- The goroutine of a request that was served and answered with `resp`. -/
def Thread.finished : Req → Response → Thread
  | .upload q, resp => .upload q (.done resp)
  | .delete q, resp => .delete q (.done resp)

/-- The response of the handler serving a request alone. -/
def respond (cfg : Config) (sum : Bytes → Bytes) (s : Store) : Req → Response
  | .upload q => (UploadFile cfg sum s q).2
  | .delete q => (DeleteFile s q).2

/-- The scheduler lets the goroutine with the given index take one step; an index
without a goroutine changes nothing. -/
def schedStep (cfg : Config) (sum : Bytes → Bytes) (st : Store × List Thread) (i : Nat) :
    Store × List Thread :=
  match st.2.get? i with
  | none => st
  | some t => ((t.step cfg sum st.1).1, st.2.set i (t.step cfg sum st.1).2)

/-- The store and the goroutines after a schedule: the list of the indices of the
goroutines that step, in order. -/
def interleave (cfg : Config) (sum : Bytes → Bytes) (st : Store × List Thread)
    (schedule : List Nat) : Store × List Thread :=
  schedule.foldl (schedStep cfg sum) st

/-- The schedule that serves the requests one at a time: every goroutine takes all its
steps (at most four) before the next one starts. -/
def serialSchedule (first count : Nat) : List Nat :=
  (List.range' first count).flatMap (fun i => List.replicate 4 i)

/-- The goroutines of a list of requests after they were served one at a time. -/
def served (cfg : Config) (sum : Bytes → Bytes) : Store → List Req → List Thread
  | _, [] => []
  | s, req :: rest =>
    Thread.finished req (respond cfg sum s req) :: served cfg sum (step cfg sum s req) rest

/-! ## Example data -/

/-- The default configuration: uploads go to `uploads`, at most 10 MB. -/
def exampleConfig : Config :=
  { UploadDir := "uploads", MaxUploadSize := 10485760, JWTSecret := "secret" }

/-- A stand-in digest function with 32-byte output: the content padded with zeros and
cut to 32 bytes. -/
def exampleSum (c : Bytes) : Bytes :=
  (c ++ List.replicate 32 0).take 32

/-- An upload of `content` under `name` in which nothing fails. -/
def exampleUpload (name : String) (content : Bytes) (uuidFile uuidID : String) : UploadReq :=
  { parseErr := false
    formFile := some
      ({ Filename := name, ContentType := "text/plain", Size := content.length },
       { data := content, pos := 0, seekErr := false, readErr := false })
    findErr := false
    createErr := false
    copyErr := none
    insertErr := false
    uuidFile := uuidFile
    uuidID := uuidID
    now := 1700000000000 }

/-- A delete of the record `id` in which nothing fails. -/
def exampleDelete (id : String) : DeleteReq :=
  { id := id, findErr := false, deleteErr := false, countErr := false, removeErr := false }

/-- The store after the content `[1, 2]` was uploaded twice. -/
def exampleStore : Store :=
  run exampleConfig exampleSum Store.empty
    [.upload (exampleUpload "a.txt" [1, 2] "u1" "i1"),
     .upload (exampleUpload "b.txt" [1, 2] "u2" "i2")]

/-- The record an upload of `[1, 2]` as `a.txt` leaves in the example store. -/
def exampleRecord : File :=
  newRecord (exampleUpload "a.txt" [1, 2] "u1" "i1")
    { Filename := "a.txt", ContentType := "text/plain", Size := 2 }
    "/uploads/u1.txt" (digest exampleSum [1, 2])

/-- The records a response lists; none when the response is not a listing. -/
def listed (resp : Response) : List File :=
  match resp.body with
  | .files fs => fs
  | _ => []

/-- A listing request without any parameter, in which nothing fails. -/
def exampleListReq : ListReq :=
  { search := "", file_type := "", size_min := "", size_max := "", uploaded_after := "",
    uploaded_before := "", findErr := false, decodeErr := false }

/-- A record of the given size and upload time. -/
def sizedRecord (id : String) (size uploadedAt : Int) : File :=
  { ID := id, File := "/uploads/" ++ id, OriginalFilename := id ++ ".bin",
    FileType := "application/octet-stream", Size := size, Hash := id, UploadedAt := uploadedAt }

/-- Three records of 100, 500 and 2000 bytes, uploaded at noon UTC on 2024-03-08,
2024-03-09 and 2024-03-10. -/
def sizeExampleStore : Store :=
  { db := [sizedRecord "s100" 100 1709899200000, sizedRecord "s500" 500 1709985600000,
      sizedRecord "s2000" 2000 1710072000000]
    fs := [] }

/-- A request carrying the given Authorization header: an upload of `[1, 2]`, read as a
listing without parameters or as a delete of `i1`. -/
def exampleRequest (authorization : String) : Request :=
  { authorization := authorization
    username := none
    list := exampleListReq
    upload := exampleUpload "a.txt" [1, 2] "u1" "i1"
    delete := exampleDelete "i1" }

/-- A token parser that accepts the token `good` of user `alice` and nothing else. -/
def exampleParser (tokenStr _key : String) : Token :=
  if tokenStr = "good" then { err := false, Valid := true, Username := "alice" }
  else { err := true, Valid := false, Username := "" }

/-- The store holding the content `[1, 2]` under the single record `i1`. -/
def raceStore : Store :=
  run exampleConfig exampleSum Store.empty [.upload (exampleUpload "a.txt" [1, 2] "u1" "i1")]

/-- Two goroutines about to start: an upload of the same content `[1, 2]` and a delete of
the record `i1`. -/
def raceThreads : List Thread :=
  [Thread.start (.upload (exampleUpload "b.txt" [1, 2] "u2" "i2")),
   Thread.start (.delete (exampleDelete "i1"))]

/-! # Theorems -/

/-! ## Strings, hexadecimal output -/

theorem TrimPrefix_slash (p : String) : TrimPrefix ("/" ++ p) "/" = p := by
  simp [TrimPrefix, String.data_append]

theorem hexDigit_mem (n : Nat) (h : n < 16) : hexDigit n ∈ hexAlphabet := by
  interval_cases n <;> decide

theorem hexEncode_length (bs : Bytes) : (hexEncode bs).length = 2 * bs.length := by
  unfold hexEncode
  rw [String.length]
  induction bs with
  | nil => rfl
  | cons b bs ih => simp [List.flatMap_cons, hexByte, ih]; omega

theorem hexEncode_alphabet (bs : Bytes) : ∀ c ∈ (hexEncode bs).data, c ∈ hexAlphabet := by
  intro c hc
  simp only [hexEncode, List.mem_flatMap, hexByte] at hc
  obtain ⟨b, -, hb⟩ := hc
  simp only [List.mem_cons, List.mem_singleton, List.not_mem_nil, or_false] at hb
  rcases hb with rfl | rfl
  · exact hexDigit_mem _ (Nat.mod_lt _ (by decide))
  · exact hexDigit_mem _ (Nat.mod_lt _ (by decide))

theorem calculateFileHash_ok (sum : Bytes → Bytes) (file : ReadSeeker)
    (hseek : file.seekErr = false) (hread : file.readErr = false) :
    calculateFileHash sum file = .ok (hexEncode (sum file.data), { file with pos := 0 }) := by
  simp [calculateFileHash, ReadSeeker.seekStart, ReadSeeker.readAll, hseek, hread]

/-! ## Filesystem -/

theorem FS.find_filter_ne (fs : FS) (p q : String) (h : ¬ q = p) :
    (fs.filter (fun e => e.1 ≠ p)).find? (fun e => e.1 = q) = fs.find? (fun e => e.1 = q) := by
  rw [List.find?_filter]
  congr 1
  funext a
  by_cases ha : a.1 = q
  · simp [ha, h]
  · simp [ha]

theorem FS.read_writeFile (fs : FS) (p q : String) (c : Bytes) :
    (fs.writeFile p c).read q = if q = p then some c else fs.read q := by
  by_cases h : q = p
  · subst h; simp [FS.read, FS.writeFile]
  · have h' : ¬ p = q := fun e => h e.symm
    simp only [FS.read, FS.writeFile, List.find?_cons, h, h', decide_False, if_false]
    rw [FS.find_filter_ne fs p q h]

theorem FS.read_remove (fs : FS) (p q : String) :
    (fs.remove p).read q = if q = p then none else fs.read q := by
  by_cases h : q = p
  · subst h
    simp only [FS.read, FS.remove, if_true, Option.map_eq_none']
    rw [List.find?_eq_none]
    intro e he
    simp only [List.mem_filter, decide_eq_true_eq] at he
    simpa using he.2
  · simp only [FS.read, FS.remove, h, if_false]
    rw [FS.find_filter_ne fs p q h]

theorem FS.remove_of_read_none (fs : FS) (p : String) (h : fs.read p = none) :
    fs.remove p = fs := by
  simp only [FS.read, Option.map_eq_none', List.find?_eq_none] at h
  simp only [FS.remove, List.filter_eq_self]
  intro e he
  simpa using h e he

theorem osRemove_ok (fs : FS) (p : String) : (osRemove false fs p).1 = fs.remove p := by
  unfold osRemove
  cases h : fs.read p with
  | none => simp [FS.remove_of_read_none fs p h]
  | some c => simp

/-! ## Collection -/

theorem findOneByID_of_mem (db : List File) (r : File) (hr : r ∈ db)
    (huniq : (db.map (fun f => f.ID)).Nodup) : findOneByID db r.ID = some r := by
  induction db with
  | nil => cases hr
  | cons x db ih =>
    simp only [List.map_cons, List.nodup_cons, List.mem_map, not_exists, not_and] at huniq
    by_cases hx : x.ID = r.ID
    · rcases List.mem_cons.1 hr with rfl | h
      · simp [findOneByID]
      · exact absurd hx.symm (huniq.1 r h)
    · rcases List.mem_cons.1 hr with rfl | h
      · exact absurd rfl hx
      · simpa [findOneByID, List.find?_cons, hx] using ih h huniq.2

theorem deleteOne_eq_erase (db : List File) (r : File) (hr : r ∈ db)
    (huniq : (db.map (fun f => f.ID)).Nodup) : deleteOne db r.ID = db.erase r := by
  induction db with
  | nil => cases hr
  | cons x db ih =>
    simp only [List.map_cons, List.nodup_cons, List.mem_map, not_exists, not_and] at huniq
    by_cases hx : x.ID = r.ID
    · rcases List.mem_cons.1 hr with rfl | h
      · simp [deleteOne]
      · exact absurd hx.symm (huniq.1 r h)
    · rcases List.mem_cons.1 hr with rfl | h
      · exact absurd rfl hx
      · have hne : x ≠ r := fun e => hx (by rw [e])
        have := ih h huniq.2
        simp only [deleteOne] at this ⊢
        rw [List.eraseP_cons_of_neg (by simpa using hx), this, List.erase_cons_tail (by simpa using hne)]

theorem mem_deleteOne_iff (db : List File) (r : File) (hr : r ∈ db)
    (huniq : (db.map (fun f => f.ID)).Nodup) (x : File) :
    x ∈ deleteOne db r.ID ↔ x ∈ db ∧ x ≠ r := by
  rw [deleteOne_eq_erase db r hr huniq, (List.Nodup.of_map _ huniq).mem_erase_iff]
  exact and_comm

theorem countDocuments_eq_zero_iff (db : List File) (h : String) :
    countDocuments db h = 0 ↔ ∀ x ∈ db, x.Hash ≠ h := by
  simp [countDocuments, List.countP_eq_zero]


/-- C4: when no seek or read fails, calculateFileHash returns the 64-character lower-case
hexadecimal digest of the entire contents, whatever the initial read position, and
leaves the source at offset 0 with its contents untouched. -/
theorem calculateFileHash_digest_and_rewind (sum : Bytes → Bytes) (file : ReadSeeker)
    (hsum : (sum file.data).length = 32)
    (hseek : file.seekErr = false) (hread : file.readErr = false) :
    ∃ f, calculateFileHash sum file = .ok (hexEncode (sum file.data), f)
      ∧ (hexEncode (sum file.data)).length = 64
      ∧ (∀ c ∈ (hexEncode (sum file.data)).data, c ∈ hexAlphabet)
      ∧ f.pos = 0 ∧ f.data = file.data
      ∧ ∀ p, calculateFileHash sum { file with pos := p } = calculateFileHash sum file := by
  refine ⟨{ file with pos := 0 }, calculateFileHash_ok sum file hseek hread, ?_,
    hexEncode_alphabet _, rfl, rfl, ?_⟩
  · rw [hexEncode_length, hsum]
  · intro p
    rw [calculateFileHash_ok sum file hseek hread,
      calculateFileHash_ok sum { file with pos := p } hseek hread]

/-- Witness of C4: a three-byte source read from position 2, with a 32-byte digest. -/
theorem calculateFileHash_digest_and_rewind_witness :
    ∃ f, calculateFileHash (fun d => List.replicate 32 d.length)
        { data := [7, 8, 9], pos := 2, seekErr := false, readErr := false }
        = .ok (hexEncode (List.replicate 32 3), f)
      ∧ (hexEncode (List.replicate 32 3)).length = 64
      ∧ (∀ c ∈ (hexEncode (List.replicate 32 3)).data, c ∈ hexAlphabet)
      ∧ f.pos = 0 ∧ f.data = [7, 8, 9]
      ∧ ∀ p, calculateFileHash (fun d => List.replicate 32 d.length)
          { data := [7, 8, 9], pos := p, seekErr := false, readErr := false }
          = calculateFileHash (fun d => List.replicate 32 d.length)
            { data := [7, 8, 9], pos := 2, seekErr := false, readErr := false } :=
  calculateFileHash_digest_and_rewind (fun d => List.replicate 32 d.length)
    { data := [7, 8, 9], pos := 2, seekErr := false, readErr := false } rfl rfl rfl

/-- C1: for a store whose records have distinct ids and an existing record r, when the
lookup, the metadata deletion and the reference count succeed, DeleteFile(r.ID) removes
exactly r from the metadata; it leaves the disk as it was when another record has the
hash of r; and when none has, it calls os.Remove on r.File without its leading slash,
so that, os.Remove not failing, the file is gone and every other file is untouched. -/
theorem DeleteFile_reclaims_iff_last_reference (s : Store) (r : File) (q : DeleteReq)
    (hr : r ∈ s.db) (huniq : (s.db.map (fun f => f.ID)).Nodup)
    (hid : q.id = r.ID) (hne : r.ID ≠ "")
    (hfind : q.findErr = false) (hdel : q.deleteErr = false) (hcount : q.countErr = false) :
    (DeleteFile s q).1.db = s.db.erase r
      ∧ (∀ x, x ∈ (DeleteFile s q).1.db ↔ x ∈ s.db ∧ x ≠ r)
      ∧ ((∃ x ∈ s.db, x ≠ r ∧ x.Hash = r.Hash) → (DeleteFile s q).1.fs = s.fs)
      ∧ ((∀ x ∈ s.db, x ≠ r → x.Hash ≠ r.Hash) →
          (DeleteFile s q).1.fs = (osRemove q.removeErr s.fs (TrimPrefix r.File "/")).1
          ∧ (q.removeErr = false →
              (DeleteFile s q).1.fs.read (TrimPrefix r.File "/") = none
              ∧ ∀ p, p ≠ TrimPrefix r.File "/" → (DeleteFile s q).1.fs.read p = s.fs.read p))
      ∧ (DeleteFile s q).2.status = 204 := by
  have hq : ¬ q.id = "" := by rw [hid]; exact hne
  have hf : findOneByID s.db q.id = some r := by rw [hid]; exact findOneByID_of_mem s.db r hr huniq
  have hcnt : countDocuments (deleteOne s.db q.id) r.Hash = 0 ↔ ∀ x ∈ s.db, x ≠ r → x.Hash ≠ r.Hash := by
    rw [countDocuments_eq_zero_iff, hid]
    constructor
    · intro h x hx hxr; exact h x ((mem_deleteOne_iff s.db r hr huniq x).2 ⟨hx, hxr⟩)
    · intro h x hx
      have := (mem_deleteOne_iff s.db r hr huniq x).1 hx
      exact h x this.1 this.2
  have hdb : (DeleteFile s q).1.db = deleteOne s.db q.id := by
    simp only [DeleteFile, hq, hf, hfind, hdel, hcount, if_false, Bool.false_eq_true]
    split <;> rfl
  refine ⟨?_, ?_, ?_, ?_, ?_⟩
  · rw [hdb, hid, deleteOne_eq_erase s.db r hr huniq]
  · intro x; rw [hdb, hid]; exact mem_deleteOne_iff s.db r hr huniq x
  · rintro ⟨x, hx, hxr, hxh⟩
    have : ¬ countDocuments (deleteOne s.db q.id) r.Hash = 0 := fun h => hcnt.1 h x hx hxr hxh
    simp [DeleteFile, hq, hf, hfind, hdel, hcount, this]
  · intro hall
    have h0 : countDocuments (deleteOne s.db q.id) r.Hash = 0 := hcnt.2 hall
    have hfs : (DeleteFile s q).1.fs = (osRemove q.removeErr s.fs (TrimPrefix r.File "/")).1 := by
      simp [DeleteFile, hq, hf, hfind, hdel, hcount, h0]
    refine ⟨hfs, ?_⟩
    intro hrem
    rw [hfs, hrem, osRemove_ok]
    refine ⟨by simp [FS.read_remove], ?_⟩
    intro p hp
    simp [FS.read_remove, hp]
  · simp only [DeleteFile, hq, hf, hfind, hdel, hcount, if_false, Bool.false_eq_true]
    split <;> rfl

/-- C6: when the record exists and its metadata deletion succeeds but the reference
count fails, DeleteFile leaves the filesystem unchanged, the record is deleted all the
same, and the response is 204 No Content. -/
theorem DeleteFile_count_failure_keeps_file (s : Store) (r : File) (q : DeleteReq)
    (hne : q.id ≠ "") (hfind : q.findErr = false) (hr : findOneByID s.db q.id = some r)
    (hdel : q.deleteErr = false) (hcount : q.countErr = true) :
    (DeleteFile s q).1.fs = s.fs
      ∧ (DeleteFile s q).1.db = deleteOne s.db q.id
      ∧ (DeleteFile s q).2 = { status := 204, body := .empty } := by
  simp [DeleteFile, hne, hfind, hr, hdel, hcount]

/-! ## UploadFile, case by case -/

theorem insertMetadata_ok (s : Store) (f : File) (h : ∀ g ∈ s.db, g.ID ≠ f.ID) :
    insertMetadata false s f = ({ s with db := s.db ++ [f] }, { status := 201, body := .file f }) := by
  have : s.db.any (fun g => decide (g.ID = f.ID)) = false := by
    rw [List.any_eq_false]; intro g hg; simpa using h g hg
  simp [insertMetadata, insertOne, this]

theorem insertMetadata_cases (b : Bool) (s : Store) (f : File) :
    (insertMetadata b s f = (s, httpError "Could not save file metadata" 500))
      ∨ ((∀ g ∈ s.db, g.ID ≠ f.ID) ∧ b = false ∧
          insertMetadata b s f = ({ s with db := s.db ++ [f] }, { status := 201, body := .file f })) := by
  cases b with
  | true => left; simp [insertMetadata]
  | false =>
    by_cases h : ∀ g ∈ s.db, g.ID ≠ f.ID
    · right; exact ⟨h, rfl, insertMetadata_ok s f h⟩
    · left
      have : s.db.any (fun g => decide (g.ID = f.ID)) = true := by
        rw [List.any_eq_true]; push_neg at h
        obtain ⟨g, hg, he⟩ := h; exact ⟨g, hg, by simpa using he⟩
      simp [insertMetadata, insertOne, this]

theorem findOneByHash_some {db : List File} {h : String} {e : File}
    (he : findOneByHash db h = some e) : e ∈ db ∧ e.Hash = h := by
  unfold findOneByHash at he
  exact ⟨List.mem_of_find?_eq_some he, by simpa using List.find?_some he⟩

theorem findOneByHash_none {db : List File} {h : String}
    (he : findOneByHash db h = none) : ∀ r ∈ db, r.Hash ≠ h := by
  unfold findOneByHash at he
  intro r hr
  simpa using (List.find?_eq_none.1 he) r hr

theorem UploadFile_outcome (cfg : Config) (sum : Bytes → Bytes) (s : Store) (q : UploadReq) :
    UploadOutcome cfg sum s q (UploadFile cfg sum s q) := by
  unfold UploadFile
  by_cases hp : q.parseErr = true
  · simp only [hp, if_true]; exact .rejected _ (by simp [httpError])
  simp only [hp, if_false, Bool.false_eq_true]
  cases hf : q.formFile with
  | none => exact .rejected _ (by decide)
  | some hf' =>
    obtain ⟨hd, file⟩ := hf'
    simp only
    by_cases hs : file.seekErr = true
    · simp only [calculateFileHash, ReadSeeker.seekStart, hs, if_true]
      exact .rejected _ (by decide)
    by_cases hr : file.readErr = true
    · simp only [calculateFileHash, ReadSeeker.seekStart, ReadSeeker.readAll, hs, hr, if_true,
        if_false, Bool.false_eq_true]
      exact .rejected _ (by decide)
    rw [calculateFileHash_ok sum file (by simpa using hs) (by simpa using hr)]
    simp only
    by_cases hfe : q.findErr = true
    · simp only [hfe, if_true]
      by_cases hc : q.createErr = true
      · simp only [hc, if_true]; exact .rejected _ (by decide)
      simp only [hc, if_false, Bool.false_eq_true, ReadSeeker.readAll, hr, List.drop_zero]
      cases hcp : q.copyErr with
      | some n => exact .partialWrite hd file _ _ hf (by decide)
      | none =>
        simp only
        rcases insertMetadata_cases q.insertErr
          { s with fs := s.fs.writeFile (uploadPath cfg q.uuidFile hd.Filename) file.data }
          (newRecord q hd ("/" ++ uploadPath cfg q.uuidFile hd.Filename)
            (hexEncode (sum file.data))) with h | ⟨h1, -, h3⟩
        · rw [h]; exact .partialWrite hd file _ _ hf (by decide)
        · rw [h3]; exact .created hd file _ hf (Or.inl hfe) rfl rfl rfl h1
    simp only [hfe, if_false, Bool.false_eq_true]
    cases he : findOneByHash s.db (hexEncode (sum file.data)) with
    | some e =>
      simp only
      rcases insertMetadata_cases q.insertErr s
          (newRecord q hd e.File (hexEncode (sum file.data))) with h | ⟨h1, -, h3⟩
      · rw [h]; exact .rejected _ (by decide)
      · rw [h3]; exact .duplicate hd file e _ hf he (by simpa using hfe) rfl rfl rfl h1
    | none =>
      simp only
      by_cases hc : q.createErr = true
      · simp only [hc, if_true]; exact .rejected _ (by decide)
      simp only [hc, if_false, Bool.false_eq_true, ReadSeeker.readAll, hr, List.drop_zero]
      cases hcp : q.copyErr with
      | some n => exact .partialWrite hd file _ _ hf (by decide)
      | none =>
        simp only
        rcases insertMetadata_cases q.insertErr
          { s with fs := s.fs.writeFile (uploadPath cfg q.uuidFile hd.Filename) file.data }
          (newRecord q hd ("/" ++ uploadPath cfg q.uuidFile hd.Filename)
            (hexEncode (sum file.data))) with h | ⟨h1, -, h3⟩
        · rw [h]; exact .partialWrite hd file _ _ hf (by decide)
        · rw [h3]; exact .created hd file _ hf (Or.inr he) rfl rfl rfl h1


theorem DeleteFile_outcome (s : Store) (q : DeleteReq) :
    DeleteOutcome s q (DeleteFile s q) := by
  unfold DeleteFile
  by_cases hid : q.id = ""
  · simp only [hid, if_true]; exact .refused _ (by decide)
  simp only [hid, if_false]
  by_cases hq : q.findErr = true
  · simp only [hq, if_true]; exact .refused _ (by decide)
  simp only [hq, if_false, Bool.false_eq_true]
  cases hr : findOneByID s.db q.id with
  | none => exact .refused _ (by decide)
  | some r =>
    simp only
    by_cases hd : q.deleteErr = true
    · simp only [hd, if_true]; exact .refused _ (by decide)
    simp only [hd, if_false, Bool.false_eq_true]
    by_cases hc : q.countErr = true
    · simp only [hc, if_true]
      exact .kept r hid (by simpa using hq) hr (Or.inl hc)
    simp only [hc, if_false, Bool.false_eq_true]
    by_cases h0 : countDocuments (deleteOne s.db q.id) r.Hash = 0
    · simp only [h0, if_true]
      exact .reclaimed r hid (by simpa using hq) hr (by simpa using hc) h0
    · simp only [h0, if_false]
      exact .kept r hid (by simpa using hq) hr (Or.inr h0)

theorem findOneByID_some {db : List File} {id : String} {r : File}
    (h : findOneByID db id = some r) : r ∈ db ∧ r.ID = id := by
  unfold findOneByID at h
  exact ⟨List.mem_of_find?_eq_some h, by simpa using List.find?_some h⟩

theorem mem_of_mem_deleteOne {db : List File} {id : String} {x : File}
    (h : x ∈ deleteOne db id) : x ∈ db :=
  List.mem_of_mem_eraseP h

theorem FS.mem_of_read {fs : FS} {p : String} {c : Bytes} (h : fs.read p = some c) :
    (p, c) ∈ fs := by
  unfold FS.read at h
  obtain ⟨e, he, rfl⟩ := Option.map_eq_some'.1 h
  have h1 := List.mem_of_find?_eq_some he
  have h2 : e.1 = p := by simpa using List.find?_some he
  rw [← h2]; exact h1

theorem FS.read_of_mem {fs : FS} {e : String × Bytes} (h : e ∈ fs) :
    ∃ c, fs.read e.1 = some c := by
  unfold FS.read
  cases hf : fs.find? (fun x => x.1 = e.1) with
  | none =>
    have := (List.find?_eq_none.1 hf) e h
    simp at this
  | some x => exact ⟨x.2, rfl⟩

theorem osRemove_cases (b : Bool) (fs : FS) (p : String) :
    (osRemove b fs p).1 = fs ∨ (osRemove b fs p).1 = fs.remove p := by
  unfold osRemove
  split
  · left; rfl
  · split
    · right; rfl
    · left; rfl

/-! ## Every record keeps its file: invariant of all runs with fresh UUIDs -/

theorem Consistent_upload (cfg : Config) (sum : Bytes → Bytes) (s : Store) (q : UploadReq)
    (h : Consistent sum s) (hfresh : q.fresh cfg s = true) :
    Consistent sum (UploadFile cfg sum s q).1 := by
  have keep : ∀ (hd : FileHeader) (file : ReadSeeker) (c : Bytes),
      q.formFile = some (hd, file) → ∀ r ∈ s.db, ∃ c',
        (s.fs.writeFile (uploadPath cfg q.uuidFile hd.Filename) c).read (TrimPrefix r.File "/")
          = some c' ∧ digest sum c' = r.Hash := by
    intro hd file c hf r hr
    obtain ⟨c', hc', hd'⟩ := h r hr
    refine ⟨c', ?_, hd'⟩
    have hne : TrimPrefix r.File "/" ≠ uploadPath cfg q.uuidFile hd.Filename := by
      intro e
      simp only [UploadReq.fresh, hf, Bool.and_eq_true] at hfresh
      rw [← e, hc'] at hfresh
      simp at hfresh
    rw [FS.read_writeFile, if_neg hne, hc']
  have ho := UploadFile_outcome cfg sum s q
  generalize UploadFile cfg sum s q = out at ho
  cases ho with
  | rejected resp _ => exact h
  | partialWrite hd file c resp hf _ => exact keep hd file c hf
  | duplicate hd file e rec hf he hq hfile hhash hid hfr =>
    intro r hr
    rcases List.mem_append.1 hr with hr | hr
    · exact h r hr
    · rw [List.mem_singleton.1 hr, hfile, hhash]
      obtain ⟨c, hc, hd'⟩ := h e (findOneByHash_some he).1
      exact ⟨c, hc, hd'.trans (findOneByHash_some he).2⟩
  | created hd file rec hf he hfile hhash hid hfr =>
    intro r hr
    rcases List.mem_append.1 hr with hr | hr
    · exact keep hd file file.data hf r hr
    · rw [List.mem_singleton.1 hr, hfile, hhash, TrimPrefix_slash]
      exact ⟨file.data, by simp [FS.read_writeFile], rfl⟩

theorem Consistent_delete (sum : Bytes → Bytes) (s : Store) (q : DeleteReq)
    (h : Consistent sum s) : Consistent sum (DeleteFile s q).1 := by
  have ho := DeleteFile_outcome s q
  generalize DeleteFile s q = out at ho
  cases ho with
  | refused resp _ => exact h
  | kept r hid hq hr hk => exact fun x hx => h x (mem_of_mem_deleteOne hx)
  | reclaimed r hid hq hr hc h0 =>
    intro x hx
    obtain ⟨c, hc', hd⟩ := h x (mem_of_mem_deleteOne hx)
    refine ⟨c, ?_, hd⟩
    rcases osRemove_cases q.removeErr s.fs (TrimPrefix r.File "/") with e | e
    · show ((osRemove q.removeErr s.fs (TrimPrefix r.File "/")).1).read _ = _
      rw [e, hc']
    · show ((osRemove q.removeErr s.fs (TrimPrefix r.File "/")).1).read _ = _
      rw [e, FS.read_remove]
      have hne : TrimPrefix x.File "/" ≠ TrimPrefix r.File "/" := by
        intro hp
        obtain ⟨c2, hc2, hd2⟩ := h r (findOneByID_some hr).1
        rw [← hp, hc'] at hc2
        have hcc : c = c2 := by simpa using hc2
        have hxh : x.Hash = r.Hash := by rw [← hd, ← hd2, hcc]
        exact (countDocuments_eq_zero_iff _ _).1 h0 x hx hxh
      rw [if_neg hne, hc']

theorem Consistent_run (cfg : Config) (sum : Bytes → Bytes) (reqs : List Req) :
    ∀ s, Consistent sum s → freshRun cfg sum s reqs = true →
      Consistent sum (run cfg sum s reqs) := by
  induction reqs with
  | nil => intro s h _; exact h
  | cons req rest ih =>
    intro s h hf
    cases req with
    | upload q =>
      simp only [freshRun, Bool.and_eq_true] at hf
      exact ih _ (Consistent_upload cfg sum s q h hf.1) hf.2
    | delete q =>
      simp only [freshRun] at hf
      exact ih _ (Consistent_delete sum s q h) hf

theorem Consistent_empty (sum : Bytes → Bytes) : Consistent sum Store.empty := by
  intro r hr; cases hr


/-- C5: in every state reached from the empty store by requests drawing fresh UUIDs,
after an UploadFile answered 201 the physical file at the File location of the returned
record holds exactly the uploaded bytes, for new content and for duplicates alike,
provided no file on disk with other bytes has the same digest. -/
theorem UploadFile_round_trip (cfg : Config) (sum : Bytes → Bytes) (reqs : List Req)
    (q : UploadReq) (hd : FileHeader) (file : ReadSeeker) (rec : File)
    (hrun : freshRun cfg sum Store.empty reqs = true)
    (hf : q.formFile = some (hd, file))
    (hcoll : ∀ p c, (run cfg sum Store.empty reqs).fs.read p = some c →
      digest sum c = digest sum file.data → c = file.data)
    (hok : (UploadFile cfg sum (run cfg sum Store.empty reqs) q).2
      = { status := 201, body := .file rec }) :
    (UploadFile cfg sum (run cfg sum Store.empty reqs) q).1.fs.read (TrimPrefix rec.File "/")
      = some file.data := by
  have hcons := Consistent_run cfg sum reqs Store.empty (Consistent_empty sum) hrun
  generalize run cfg sum Store.empty reqs = s at hcoll hok hcons ⊢
  have ho := UploadFile_outcome cfg sum s q
  generalize UploadFile cfg sum s q = out at ho hok
  cases ho with
  | rejected resp h => simp only at hok; rw [hok] at h; exact absurd rfl h
  | partialWrite hd' file' c resp hf' h => simp only at hok; rw [hok] at h; exact absurd rfl h
  | duplicate hd' file' e rec' hf' he hq hfile hhash hid hfr =>
    simp only [Response.mk.injEq, Body.file.injEq, true_and] at hok
    subst hok
    rw [hf] at hf'
    simp only [Option.some.injEq, Prod.mk.injEq] at hf'
    obtain ⟨rfl, rfl⟩ := hf'
    obtain ⟨c, hc, hd'⟩ := hcons e (findOneByHash_some he).1
    rw [hfile]
    show s.fs.read _ = _
    rw [hc, hcoll _ c hc (hd'.trans (findOneByHash_some he).2)]
  | created hd' file' rec' hf' he hfile hhash hid hfr =>
    simp only [Response.mk.injEq, Body.file.injEq, true_and] at hok
    subst hok
    rw [hf] at hf'
    simp only [Option.some.injEq, Prod.mk.injEq] at hf'
    obtain ⟨rfl, rfl⟩ := hf'
    rw [hfile, TrimPrefix_slash]
    simp [FS.read_writeFile]


theorem UploadFile_noFault (cfg : Config) (sum : Bytes → Bytes) (s : Store) (q : UploadReq)
    (hd : FileHeader) (file : ReadSeeker)
    (hf : q.formFile = some (hd, file)) (hok : q.noFault = true) :
    UploadFile cfg sum s q =
      match findOneByHash s.db (digest sum file.data) with
      | some e => insertMetadata false s (newRecord q hd e.File (digest sum file.data))
      | none =>
        insertMetadata false
          { s with fs := s.fs.writeFile (uploadPath cfg q.uuidFile hd.Filename) file.data }
          (newRecord q hd ("/" ++ uploadPath cfg q.uuidFile hd.Filename) (digest sum file.data)) := by
  simp only [UploadReq.noFault, hf, Bool.and_eq_true, Bool.not_eq_true', Option.isNone_iff_eq_none]
    at hok
  obtain ⟨⟨⟨⟨⟨hp, hs, hr⟩, hfe⟩, hc⟩, hcp⟩, hi⟩ := hok
  unfold UploadFile
  simp only [hp, hf, Bool.false_eq_true, if_false, calculateFileHash_ok sum file hs hr, hfe, hc,
    hcp, hi, ReadSeeker.readAll, hr, List.drop_zero, digest]

/-- C2: in a store holding no record with the hash of a content, two successive uploads
of that content under any file names, with no failing operation and both answered 201,
insert two records with distinct ids, the same hash and the same File path, and write
one physical file: the second upload leaves the disk as the first left it. -/
theorem UploadFile_twice_shares_one_file (cfg : Config) (sum : Bytes → Bytes) (s : Store)
    (q1 q2 : UploadReq) (hd1 hd2 : FileHeader) (f1 f2 : ReadSeeker)
    (hf1 : q1.formFile = some (hd1, f1)) (hf2 : q2.formFile = some (hd2, f2))
    (hsame : f2.data = f1.data)
    (hok1 : q1.noFault = true) (hok2 : q2.noFault = true)
    (hnew : ∀ r ∈ s.db, r.Hash ≠ digest sum f1.data)
    (h201 : (UploadFile cfg sum s q1).2.status = 201)
    (h201' : (UploadFile cfg sum (UploadFile cfg sum s q1).1 q2).2.status = 201) :
    ∃ r1 r2,
      (UploadFile cfg sum s q1).2 = { status := 201, body := .file r1 }
      ∧ (UploadFile cfg sum (UploadFile cfg sum s q1).1 q2).2 = { status := 201, body := .file r2 }
      ∧ (UploadFile cfg sum (UploadFile cfg sum s q1).1 q2).1.db = s.db ++ [r1, r2]
      ∧ r1.ID ≠ r2.ID
      ∧ r1.Hash = digest sum f1.data ∧ r2.Hash = digest sum f1.data
      ∧ r1.File = "/" ++ uploadPath cfg q1.uuidFile hd1.Filename ∧ r2.File = r1.File
      ∧ (UploadFile cfg sum s q1).1.fs
          = s.fs.writeFile (uploadPath cfg q1.uuidFile hd1.Filename) f1.data
      ∧ (UploadFile cfg sum (UploadFile cfg sum s q1).1 q2).1.fs
          = (UploadFile cfg sum s q1).1.fs := by
  have hnone : findOneByHash s.db (digest sum f1.data) = none := by
    unfold findOneByHash
    rw [List.find?_eq_none]
    intro r hr; simpa using hnew r hr
  have e1 := UploadFile_noFault cfg sum s q1 hd1 f1 hf1 hok1
  rw [hnone] at e1
  simp only at e1
  rcases insertMetadata_cases false
      { s with fs := s.fs.writeFile (uploadPath cfg q1.uuidFile hd1.Filename) f1.data }
      (newRecord q1 hd1 ("/" ++ uploadPath cfg q1.uuidFile hd1.Filename) (digest sum f1.data))
    with h | ⟨-, -, h⟩
  · rw [e1, h] at h201; simp [httpError] at h201
  rw [h] at e1
  have hsome : findOneByHash (UploadFile cfg sum s q1).1.db (digest sum f2.data)
      = some (newRecord q1 hd1 ("/" ++ uploadPath cfg q1.uuidFile hd1.Filename)
          (digest sum f1.data)) := by
    rw [e1, hsame]
    unfold findOneByHash at hnone ⊢
    simp [List.find?_append, hnone, newRecord]
  have e2 := UploadFile_noFault cfg sum (UploadFile cfg sum s q1).1 q2 hd2 f2 hf2 hok2
  rw [hsome] at e2
  simp only at e2
  rcases insertMetadata_cases false (UploadFile cfg sum s q1).1
      (newRecord q2 hd2 (newRecord q1 hd1 ("/" ++ uploadPath cfg q1.uuidFile hd1.Filename)
          (digest sum f1.data)).File (digest sum f2.data))
    with h' | ⟨hfr, -, h'⟩
  · rw [e2, h'] at h201'; simp [httpError] at h201'
  rw [h'] at e2
  refine ⟨newRecord q1 hd1 ("/" ++ uploadPath cfg q1.uuidFile hd1.Filename) (digest sum f1.data),
    newRecord q2 hd2 (newRecord q1 hd1 ("/" ++ uploadPath cfg q1.uuidFile hd1.Filename)
      (digest sum f1.data)).File (digest sum f2.data),
    by rw [e1], by rw [e2], ?_, ?_, rfl, by rw [hsame]; rfl, rfl, rfl, by rw [e1], by rw [e2]⟩
  · rw [e2, e1]; simp
  · exact hfr (newRecord q1 hd1 ("/" ++ uploadPath cfg q1.uuidFile hd1.Filename)
      (digest sum f1.data)) (by rw [e1]; simp)


/-! ## Reference integrity: invariant of the runs in which nothing fails -/

theorem UploadReq.fresh_id (cfg : Config) (s : Store) (q : UploadReq) (hd : FileHeader)
    (file : ReadSeeker) (hf : q.formFile = some (hd, file)) (h : q.fresh cfg s = true) :
    ∀ g ∈ s.db, g.ID ≠ q.uuidID := by
  simp only [UploadReq.fresh, hf, Bool.and_eq_true, Bool.not_eq_true', List.any_eq_false] at h
  intro g hg
  simpa using h.2 g hg

theorem UploadReq.noFault_formFile (q : UploadReq) (h : q.noFault = true) :
    ∃ hd file, q.formFile = some (hd, file) := by
  cases hf : q.formFile with
  | none => simp [UploadReq.noFault, hf] at h
  | some x => exact ⟨x.1, x.2, rfl⟩

theorem Integrity_upload (cfg : Config) (sum : Bytes → Bytes) (s : Store) (q : UploadReq)
    (h : Integrity sum s) (hok : q.noFault = true) (hfresh : q.fresh cfg s = true) :
    Integrity sum (UploadFile cfg sum s q).1 := by
  obtain ⟨hd, file, hf⟩ := q.noFault_formFile hok
  have hcons := Consistent_upload cfg sum s q h.1 hfresh
  obtain ⟨-, horph, hone, huniq⟩ := h
  have hid := UploadReq.fresh_id cfg s q hd file hf hfresh
  have e := UploadFile_noFault cfg sum s q hd file hf hok
  cases hfind : findOneByHash s.db (digest sum file.data) with
  | some x =>
    rw [hfind] at e
    simp only at e
    rw [insertMetadata_ok s _ (by simpa [newRecord] using hid)] at e
    obtain ⟨hx, hxh⟩ := findOneByHash_some hfind
    refine ⟨hcons, ?_, ?_, ?_⟩
    · rw [e]
      intro f hfm
      obtain ⟨r, hr, h1, h2⟩ := horph f hfm
      exact ⟨r, List.mem_append_left _ hr, h1, h2⟩
    · rw [e]
      intro r1 h1 r2 h2 hh
      rcases List.mem_append.1 h1 with h1 | h1 <;> rcases List.mem_append.1 h2 with h2 | h2
      · exact hone r1 h1 r2 h2 hh
      · rw [List.mem_singleton.1 h2] at hh ⊢
        exact hone r1 h1 x hx (hh.trans hxh.symm)
      · rw [List.mem_singleton.1 h1] at hh ⊢
        exact (hone r2 h2 x hx (hh.symm.trans hxh.symm)).symm
      · rw [List.mem_singleton.1 h1, List.mem_singleton.1 h2]
    · rw [e]
      simp only [UniqueIDs, List.map_append, List.map_cons, List.map_nil]
      refine List.Nodup.append huniq (List.nodup_singleton _) ?_
      intro a ha hb
      obtain ⟨g, hg, rfl⟩ := List.mem_map.1 ha
      exact hid g hg (List.mem_singleton.1 hb)
  | none =>
    rw [hfind] at e
    simp only at e
    rw [insertMetadata_ok _ _ (by simpa [newRecord] using hid)] at e
    have hno := findOneByHash_none hfind
    refine ⟨hcons, ?_, ?_, ?_⟩
    · rw [e]
      intro f hfm
      rcases List.mem_cons.1 hfm with rfl | hfm
      · exact ⟨_, List.mem_append_right _ (List.mem_singleton.2 rfl), TrimPrefix_slash _, rfl⟩
      · obtain ⟨r, hr, h1, h2⟩ := horph f (List.mem_filter.1 hfm).1
        exact ⟨r, List.mem_append_left _ hr, h1, h2⟩
    · rw [e]
      intro r1 h1 r2 h2 hh
      rcases List.mem_append.1 h1 with h1 | h1 <;> rcases List.mem_append.1 h2 with h2 | h2
      · exact hone r1 h1 r2 h2 hh
      · rw [List.mem_singleton.1 h2] at hh
        exact absurd hh (hno r1 h1)
      · rw [List.mem_singleton.1 h1] at hh
        exact absurd hh.symm (hno r2 h2)
      · rw [List.mem_singleton.1 h1, List.mem_singleton.1 h2]
    · rw [e]
      simp only [UniqueIDs, List.map_append, List.map_cons, List.map_nil]
      refine List.Nodup.append huniq (List.nodup_singleton _) ?_
      intro a ha hb
      obtain ⟨g, hg, rfl⟩ := List.mem_map.1 ha
      exact hid g hg (List.mem_singleton.1 hb)

theorem Integrity_delete (sum : Bytes → Bytes) (s : Store) (q : DeleteReq)
    (h : Integrity sum s) (hok : q.noFault = true) :
    Integrity sum (DeleteFile s q).1 := by
  have hcons := Consistent_delete sum s q h.1
  obtain ⟨-, horph, hone, huniq⟩ := h
  simp only [DeleteReq.noFault, Bool.and_eq_true, Bool.not_eq_true'] at hok
  obtain ⟨⟨⟨-, -⟩, hce⟩, hre⟩ := hok
  have hsub : ∀ x, x ∈ deleteOne s.db q.id → x ∈ s.db := fun x hx => mem_of_mem_deleteOne hx
  have hone' : OnePath { s with db := deleteOne s.db q.id } :=
    fun r1 h1 r2 h2 hh => hone r1 (hsub r1 h1) r2 (hsub r2 h2) hh
  have huniq' : UniqueIDs { s with db := deleteOne s.db q.id } :=
    List.Nodup.sublist ((List.eraseP_sublist s.db).map _) huniq
  have ho := DeleteFile_outcome s q
  generalize DeleteFile s q = out at ho hcons
  cases ho with
  | refused resp _ => exact ⟨hcons, horph, hone, huniq⟩
  | kept r hid hq hr hk =>
    refine ⟨hcons, ?_, hone', huniq'⟩
    rcases hk with hk | hk
    · rw [hce] at hk; cases hk
    obtain ⟨hrm, hrid⟩ := findOneByID_some hr
    intro f hfm
    obtain ⟨r', hr', h1, h2⟩ := horph f hfm
    by_cases heq : r' = r
    · have hex : ∃ x ∈ deleteOne s.db q.id, x.Hash = r.Hash := by
        by_contra hcon
        push_neg at hcon
        exact hk ((countDocuments_eq_zero_iff _ _).2 hcon)
      obtain ⟨x, hx, hxh⟩ := hex
      refine ⟨x, hx, ?_, ?_⟩
      · rw [hone x (hsub x hx) r hrm hxh, ← heq]; exact h1
      · rw [hxh, ← heq]; exact h2
    · refine ⟨r', ?_, h1, h2⟩
      show r' ∈ deleteOne s.db q.id
      rw [← hrid]
      exact (mem_deleteOne_iff s.db r hrm huniq r').2 ⟨hr', heq⟩
  | reclaimed r hid hq hr hc h0 =>
    refine ⟨hcons, ?_, hone', huniq'⟩
    obtain ⟨hrm, hrid⟩ := findOneByID_some hr
    intro f hfm
    have hfm' : f ∈ s.fs.remove (TrimPrefix r.File "/") := by
      have : (osRemove q.removeErr s.fs (TrimPrefix r.File "/")).1
          = s.fs.remove (TrimPrefix r.File "/") := by rw [hre, osRemove_ok]
      rw [← this]; exact hfm
    obtain ⟨hf1, hf2⟩ := List.mem_filter.1 hfm'
    obtain ⟨r', hr', h1, h2⟩ := horph f hf1
    have heq : r' ≠ r := by
      intro e
      rw [e] at h1
      simp [h1] at hf2
    refine ⟨r', ?_, h1, h2⟩
    show r' ∈ deleteOne s.db q.id
    rw [← hrid]
    exact (mem_deleteOne_iff s.db r hrm huniq r').2 ⟨hr', heq⟩

theorem Integrity_empty (sum : Bytes → Bytes) : Integrity sum Store.empty := by
  refine ⟨Consistent_empty sum, ?_, ?_, List.nodup_nil⟩
  · intro e he; cases he
  · intro r hr; cases hr

theorem Integrity_run (cfg : Config) (sum : Bytes → Bytes) (reqs : List Req) :
    ∀ s, Integrity sum s → cleanRun cfg sum s reqs = true → freshRun cfg sum s reqs = true →
      Integrity sum (run cfg sum s reqs) := by
  induction reqs with
  | nil => intro s h _ _; exact h
  | cons req rest ih =>
    intro s h hff hf
    simp only [cleanRun, Bool.and_eq_true, Bool.or_eq_true, decide_eq_true_eq] at hff
    have hstep : Integrity sum (step cfg sum s req) := by
      rcases hff.1 with hok | hsame
      · cases req with
        | upload q =>
          simp only [freshRun, Bool.and_eq_true] at hf
          exact Integrity_upload cfg sum s q h hok hf.1
        | delete q => exact Integrity_delete sum s q h hok
      · rw [hsame]; exact h
    have hf' : freshRun cfg sum (step cfg sum s req) rest = true := by
      cases req with
      | upload q => simp only [freshRun, Bool.and_eq_true] at hf; exact hf.2
      | delete q => simpa only [freshRun] using hf
    exact ih _ hstep hff.2 hf'

theorem Integrity.digests_eq {sum : Bytes → Bytes} {s : Store} (h : Integrity sum s) :
    (∀ d, d ∈ fileDigests sum s ↔ d ∈ recordHashes s) ∧ orphans s = [] ∧ dangling s = [] := by
  obtain ⟨hcons, horph, -, -⟩ := h
  refine ⟨?_, ?_, ?_⟩
  · intro d
    simp only [fileDigests, recordHashes, List.mem_map]
    constructor
    · rintro ⟨e, he, rfl⟩
      obtain ⟨r, hr, -, h2⟩ := horph e he
      exact ⟨r, hr, h2⟩
    · rintro ⟨r, hr, rfl⟩
      obtain ⟨c, hc, hd⟩ := hcons r hr
      exact ⟨_, FS.mem_of_read hc, hd⟩
  · simp only [orphans, List.map_eq_nil_iff, List.filter_eq_nil_iff, Bool.not_eq_true',
      Bool.not_eq_false, List.any_eq_true, decide_eq_true_eq]
    intro e he
    obtain ⟨r, hr, h1, -⟩ := horph e he
    exact ⟨r, hr, h1⟩
  · simp only [dangling, List.filter_eq_nil_iff]
    intro r hr
    obtain ⟨c, hc, -⟩ := hcons r hr
    simp [hc]


/-- Witness of C1: deleting the first of the two records of the example store. -/
theorem DeleteFile_reclaims_iff_last_reference_witness :
    (DeleteFile exampleStore (exampleDelete "i1")).1.db = exampleStore.db.erase exampleRecord :=
  (DeleteFile_reclaims_iff_last_reference exampleStore exampleRecord (exampleDelete "i1")
    (by decide) (by decide) (by decide) (by decide) rfl rfl rfl).1

/-- Witness of C6: the count fails while the first record of the example store is
deleted. -/
theorem DeleteFile_count_failure_keeps_file_witness :
    (DeleteFile exampleStore { exampleDelete "i1" with countErr := true }).1.fs = exampleStore.fs :=
  (DeleteFile_count_failure_keeps_file exampleStore exampleRecord
    { exampleDelete "i1" with countErr := true } (by decide) rfl (by decide) rfl rfl).1

/-- Witness of C2: the content `[1, 2]` uploaded as `a.txt` and then as `b.txt` into the
empty store. -/
theorem UploadFile_twice_shares_one_file_witness :
    ∃ r1 r2,
      (UploadFile exampleConfig exampleSum Store.empty
          (exampleUpload "a.txt" [1, 2] "u1" "i1")).2 = { status := 201, body := .file r1 }
      ∧ (UploadFile exampleConfig exampleSum
          (UploadFile exampleConfig exampleSum Store.empty
            (exampleUpload "a.txt" [1, 2] "u1" "i1")).1
          (exampleUpload "b.txt" [1, 2] "u2" "i2")).2 = { status := 201, body := .file r2 }
      ∧ r1.ID ≠ r2.ID ∧ r2.File = r1.File := by
  obtain ⟨r1, r2, h1, h2, -, h4, -, -, -, h8, -, -⟩ :=
    UploadFile_twice_shares_one_file exampleConfig exampleSum Store.empty
      (exampleUpload "a.txt" [1, 2] "u1" "i1") (exampleUpload "b.txt" [1, 2] "u2" "i2")
      { Filename := "a.txt", ContentType := "text/plain", Size := 2 }
      { Filename := "b.txt", ContentType := "text/plain", Size := 2 }
      { data := [1, 2], pos := 0, seekErr := false, readErr := false }
      { data := [1, 2], pos := 0, seekErr := false, readErr := false }
      rfl rfl rfl (by decide) (by decide) (by intro r hr; cases hr) (by decide) (by decide)
  exact ⟨r1, r2, h1, h2, h4, h8⟩

/-- Witness of C5: a duplicate of `[1, 2]` uploaded after the first copy. -/
theorem UploadFile_round_trip_witness :
    (UploadFile exampleConfig exampleSum
        (run exampleConfig exampleSum Store.empty [.upload (exampleUpload "a.txt" [1, 2] "u1" "i1")])
        (exampleUpload "b.txt" [1, 2] "u2" "i2")).1.fs.read (TrimPrefix "/uploads/u1.txt" "/")
      = some [1, 2] :=
  UploadFile_round_trip exampleConfig exampleSum [.upload (exampleUpload "a.txt" [1, 2] "u1" "i1")]
    (exampleUpload "b.txt" [1, 2] "u2" "i2")
    { Filename := "b.txt", ContentType := "text/plain", Size := 2 }
    { data := [1, 2], pos := 0, seekErr := false, readErr := false }
    { exampleRecord with ID := "i2", OriginalFilename := "b.txt" }
    (by decide) rfl
    (by
      intro p c h _
      have hfs : (run exampleConfig exampleSum Store.empty
          [.upload (exampleUpload "a.txt" [1, 2] "u1" "i1")]).fs = [("uploads/u1.txt", [1, 2])] := by
        decide
      rw [hfs] at h
      have := FS.mem_of_read h
      simp only [List.mem_singleton, Prod.mk.injEq] at this
      exact this.2)
    (by decide)

/-- C3, amended: in every state reached from the empty store by UploadFile and
DeleteFile requests served one at a time, each of which either meets no failing input or
output operation or fails without changing the store, every upload drawing fresh UUIDs,
the digests of the physical files are exactly the hashes of the records: no file is an
orphan and no record dangles. -/
theorem reference_integrity_when_nothing_fails (cfg : Config) (sum : Bytes → Bytes)
    (reqs : List Req) (hok : cleanRun cfg sum Store.empty reqs = true)
    (hfresh : freshRun cfg sum Store.empty reqs = true) :
    (∀ d, d ∈ fileDigests sum (run cfg sum Store.empty reqs)
        ↔ d ∈ recordHashes (run cfg sum Store.empty reqs))
      ∧ orphans (run cfg sum Store.empty reqs) = []
      ∧ dangling (run cfg sum Store.empty reqs) = [] :=
  (Integrity_run cfg sum reqs Store.empty (Integrity_empty sum) hok hfresh).digests_eq

/-- Witness of C3, amended: two uploads of one content, a delete of the first record, an
upload of another content and a delete whose lookup fails. -/
theorem reference_integrity_when_nothing_fails_witness :
    orphans (run exampleConfig exampleSum Store.empty
        [.upload (exampleUpload "a.txt" [1, 2] "u1" "i1"),
         .upload (exampleUpload "b.txt" [1, 2] "u2" "i2"),
         .delete (exampleDelete "i1"),
         .upload (exampleUpload "c.png" [3] "u3" "i3"),
         .delete { exampleDelete "i3" with findErr := true }]) = []
      ∧ dangling (run exampleConfig exampleSum Store.empty
        [.upload (exampleUpload "a.txt" [1, 2] "u1" "i1"),
         .upload (exampleUpload "b.txt" [1, 2] "u2" "i2"),
         .delete (exampleDelete "i1"),
         .upload (exampleUpload "c.png" [3] "u3" "i3"),
         .delete { exampleDelete "i3" with findErr := true }]) = [] :=
  (reference_integrity_when_nothing_fails exampleConfig exampleSum
    [.upload (exampleUpload "a.txt" [1, 2] "u1" "i1"),
     .upload (exampleUpload "b.txt" [1, 2] "u2" "i2"),
     .delete (exampleDelete "i1"),
     .upload (exampleUpload "c.png" [3] "u3" "i3"),
     .delete { exampleDelete "i3" with findErr := true }] (by decide) (by decide)).2

/-- Counterexample to C3 as stated: an upload followed by a delete whose reference count
fails. Both requests are served, the UUIDs are fresh, the store ends with no record and
one physical file, whose digest is the hash of no record. -/
theorem reference_integrity_counterexample :
    freshRun exampleConfig exampleSum Store.empty
        [.upload (exampleUpload "a.txt" [1, 2] "u1" "i1"),
         .delete { exampleDelete "i1" with countErr := true }] = true
      ∧ (run exampleConfig exampleSum Store.empty
          [.upload (exampleUpload "a.txt" [1, 2] "u1" "i1"),
           .delete { exampleDelete "i1" with countErr := true }])
          = { db := [], fs := [("uploads/u1.txt", [1, 2])] }
      ∧ ¬ (∀ d, d ∈ fileDigests exampleSum (run exampleConfig exampleSum Store.empty
            [.upload (exampleUpload "a.txt" [1, 2] "u1" "i1"),
             .delete { exampleDelete "i1" with countErr := true }])
          ↔ d ∈ recordHashes (run exampleConfig exampleSum Store.empty
            [.upload (exampleUpload "a.txt" [1, 2] "u1" "i1"),
             .delete { exampleDelete "i1" with countErr := true }])) := by
  refine ⟨by decide, by decide, ?_⟩
  intro h
  have := (h (digest exampleSum [1, 2])).1 (by decide)
  revert this
  decide


/-! ## Listing filters -/

theorem ParseInt_ne_empty {s : String} {a : Int} (h : ParseInt s = some a) : s ≠ "" := by
  rintro rfl
  simp [ParseInt] at h

/-- C7: when size_min and size_max both parse, to a and b, the filter GetFiles builds
holds both size bounds, and a record matches it exactly when a <= size <= b and it
matches the filter of the other parameters; with no other parameter it matches exactly
when a <= size <= b. Of three records of 100, 500 and 2000 bytes,
size_min=200 and size_max=1000 list the 500-byte record alone. -/
theorem GetFiles_size_range (regexMatch : String → String → String → Bool) (q : ListReq)
    (a b : Int) (r : File)
    (ha : ParseInt q.size_min = some a) (hb : ParseInt q.size_max = some b) :
    ("size", Cond.gte (.int a)) ∈ buildFilter q
      ∧ ("size", Cond.lte (.int b)) ∈ buildFilter q
      ∧ (matchesFilter regexMatch (buildFilter q) r = true
          ↔ (a ≤ r.Size ∧ r.Size ≤ b)
            ∧ matchesFilter regexMatch
                (buildFilter { q with size_min := "", size_max := "" }) r = true)
      ∧ (q.search = "" → q.file_type = "" → q.uploaded_after = "" → q.uploaded_before = "" →
          (matchesFilter regexMatch (buildFilter q) r = true ↔ a ≤ r.Size ∧ r.Size ≤ b))
      ∧ listed (GetFiles regexMatch sizeExampleStore
            { exampleListReq with size_min := "200", size_max := "1000" }).2
          = [sizedRecord "s500" 500 1709985600000] := by
  have h1 := ParseInt_ne_empty ha
  have h2 := ParseInt_ne_empty hb
  refine ⟨?_, ?_, ?_, ?_, ?_⟩
  · simp only [buildFilter, ha, hb, h1, h2, ne_eq, not_true_eq_false, not_false_eq_true,
      if_true, if_false, List.nil_append]
    cases timeParse q.uploaded_after <;> cases timeParse q.uploaded_before <;>
      by_cases hs : q.search = "" <;> by_cases ht : q.file_type = "" <;>
      by_cases hu : q.uploaded_after = "" <;> by_cases hv : q.uploaded_before = "" <;>
      simp [hs, ht, hu, hv]
  · simp only [buildFilter, ha, hb, h1, h2, ne_eq, not_true_eq_false, not_false_eq_true,
      if_true, if_false, List.nil_append]
    cases timeParse q.uploaded_after <;> cases timeParse q.uploaded_before <;>
      by_cases hs : q.search = "" <;> by_cases ht : q.file_type = "" <;>
      by_cases hu : q.uploaded_after = "" <;> by_cases hv : q.uploaded_before = "" <;>
      simp [hs, ht, hu, hv]
  · simp only [buildFilter, ha, hb, h1, h2, ne_eq, not_true_eq_false, not_false_eq_true,
      if_true, if_false, List.nil_append]
    cases timeParse q.uploaded_after <;> cases timeParse q.uploaded_before <;>
      by_cases hs : q.search = "" <;> by_cases ht : q.file_type = "" <;>
      by_cases hu : q.uploaded_after = "" <;> by_cases hv : q.uploaded_before = "" <;>
      simp [hs, ht, hu, hv, matchesFilter, matchesElem, fieldValue, Cond.holds] <;> tauto
  · intro hs ht hu hv
    simp [buildFilter, ha, hb, h1, h2, hs, ht, hu, hv, matchesFilter, matchesElem, fieldValue,
      Cond.holds]
  · have hf : buildFilter { exampleListReq with size_min := "200", size_max := "1000" }
        = [("size", Cond.gte (.int 200)), ("size", Cond.lte (.int 1000))] := by decide
    simp only [GetFiles, hf]
    rfl

/-- Witness of C7: the query size_min=200, size_max=1000 and the 500-byte record. -/
theorem GetFiles_size_range_witness :
    matchesFilter (fun _ _ _ => true)
        (buildFilter { exampleListReq with size_min := "200", size_max := "1000" })
        (sizedRecord "s500" 500 1709985600000) = true
      ↔ (200 : Int) ≤ (sizedRecord "s500" 500 1709985600000).Size
        ∧ (sizedRecord "s500" 500 1709985600000).Size ≤ 1000 :=
  (GetFiles_size_range (fun _ _ _ => true)
    { exampleListReq with size_min := "200", size_max := "1000" } 200 1000
    (sizedRecord "s500" 500 1709985600000) (by decide) (by decide)).2.2.2.1 rfl rfl rfl rfl


/-! ## Dates -/

/-- A date of the calendar: the month in 1..12 and the day within the month. -/
theorem timeParse_valid {s : String} {t : Time} (h : timeParse s = some t) :
    1 ≤ t.month ∧ t.month ≤ 12 ∧ 1 ≤ t.day ∧ t.day ≤ daysIn t.month t.year := by
  unfold timeParse at h
  split at h
  · split at h
    · dsimp only at h
      split at h
      · rename_i hv
        simp only [Option.some.injEq] at h
        subst h
        exact hv
      · cases h
    · cases h
  · cases h

theorem timeParse_ne_empty {s : String} {t : Time} (h : timeParse s = some t) : s ≠ "" := by
  rintro rfl
  simp [timeParse] at h

theorem daysSinceEpoch_succ (y : Nat) :
    daysSinceEpoch (y + 1) = daysSinceEpoch y + 365 + (if isLeap y then 1 else 0) := by
  unfold daysSinceEpoch isLeap
  by_cases h4 : y % 4 = 0 <;> by_cases h100 : y % 100 = 0 <;> by_cases h400 : y % 400 = 0 <;>
    simp [h4, h100, h400] <;> omega

theorem unixDay_nextDay (t : Time) (hm1 : 1 ≤ t.month) (hm2 : t.month ≤ 12)
    (hd2 : t.day ≤ daysIn t.month t.year) :
    (nextDay t).unixDay = t.unixDay + 1 := by
  obtain ⟨y, m, d⟩ := t
  simp only at hm1 hm2 hd2
  unfold nextDay
  simp only
  by_cases hlt : d < daysIn m y
  · simp only [hlt, if_true, Time.unixDay]
    push_cast
    ring
  · have hd : d = daysIn m y := by omega
    simp only [hlt, if_false]
    by_cases hm : m < 12
    · simp only [hm, if_true, Time.unixDay]
      subst hd
      interval_cases m <;> by_cases hl : isLeap y = true <;>
        simp [daysIn, daysBefore, hl] <;> omega
    · have hm12 : m = 12 := by omega
      subst hm12
      subst hd
      simp only [lt_irrefl, if_false, Time.unixDay]
      have := daysSinceEpoch_succ y
      by_cases hl : isLeap y = true <;> by_cases hl' : isLeap (y + 1) = true <;>
        simp [daysIn, daysBefore, hl, hl', this] <;> omega

theorem unixDay_AddDate_one (t : Time) : (t.AddDate 0 0 1).unixDay = t.unixDay + 1 := by
  simp only [Time.AddDate, Time.unixDay, Nat.add_zero]
  push_cast
  ring


theorem buildFilter_uploaded_before (regexMatch : String → String → String → Bool) (q : ListReq)
    (t : Time) (r : File) (ht : timeParse q.uploaded_before = some t) :
    ("uploaded_at", Cond.lt (.date (t.AddDate 0 0 1).UnixMilli)) ∈ buildFilter q
      ∧ (matchesFilter regexMatch (buildFilter q) r = true
          ↔ r.UploadedAt < (t.AddDate 0 0 1).UnixMilli
            ∧ matchesFilter regexMatch (buildFilter { q with uploaded_before := "" }) r = true) := by
  have h1 := timeParse_ne_empty ht
  constructor
  · simp only [buildFilter, ht, h1, ne_eq, not_false_eq_true, if_true]
    simp
  · simp only [buildFilter, ht, h1, ne_eq, not_false_eq_true, if_true, not_true_eq_false,
      if_false]
    simp only [matchesFilter, List.all_append, Bool.and_eq_true]
    simp [matchesElem, fieldValue, Cond.holds]
    tauto

theorem nextDay_UnixMilli {s : String} {t : Time} (ht : timeParse s = some t) :
    (t.AddDate 0 0 1).UnixMilli = (nextDay t).UnixMilli
      ∧ (nextDay t).UnixMilli = t.UnixMilli + 86400000 := by
  obtain ⟨hm1, hm2, -, hd2⟩ := timeParse_valid ht
  simp only [Time.UnixMilli, unixDay_AddDate_one, unixDay_nextDay t hm1 hm2 hd2]
  constructor
  · trivial
  · ring

/-- C8: for every valid date D given as uploaded_before, the filter GetFiles builds holds
the bound "uploaded_at before 00:00 UTC of the calendar day after D", a record matches
the filter exactly when its upload time is strictly earlier than that instant and it
matches the filter of the other parameters, and that instant is 24 hours after 00:00 UTC
of D, so that every record uploaded at any time of day D satisfies the bound. -/
theorem GetFiles_uploaded_before_covers_day (regexMatch : String → String → String → Bool)
    (q : ListReq) (t : Time) (r : File) (ht : timeParse q.uploaded_before = some t) :
    ("uploaded_at", Cond.lt (.date (nextDay t).UnixMilli)) ∈ buildFilter q
      ∧ (matchesFilter regexMatch (buildFilter q) r = true
          ↔ r.UploadedAt < (nextDay t).UnixMilli
            ∧ matchesFilter regexMatch (buildFilter { q with uploaded_before := "" }) r = true)
      ∧ (matchesElem regexMatch r ("uploaded_at", Cond.lt (.date (nextDay t).UnixMilli)) = true
          ↔ r.UploadedAt < (nextDay t).UnixMilli)
      ∧ (nextDay t).UnixMilli = t.UnixMilli + 86400000
      ∧ (t.UnixMilli ≤ r.UploadedAt → r.UploadedAt < t.UnixMilli + 86400000 →
          matchesElem regexMatch r ("uploaded_at", Cond.lt (.date (nextDay t).UnixMilli)) = true) := by
  obtain ⟨h1, h2⟩ := buildFilter_uploaded_before regexMatch q t r ht
  obtain ⟨e1, e2⟩ := nextDay_UnixMilli ht
  rw [e1] at h1 h2
  have h3 : matchesElem regexMatch r ("uploaded_at", Cond.lt (.date (nextDay t).UnixMilli)) = true
      ↔ r.UploadedAt < (nextDay t).UnixMilli := by
    simp [matchesElem, fieldValue, Cond.holds]
  refine ⟨h1, h2, h3, e2, ?_⟩
  intro _ hlt
  rw [h3, e2]; exact hlt

/-- Witness of C8: uploaded_before=2024-03-10 and the record uploaded at noon that day. -/
theorem GetFiles_uploaded_before_covers_day_witness :
    matchesElem (fun _ _ _ => true) (sizedRecord "s2000" 2000 1710072000000)
      ("uploaded_at", Cond.lt (.date
        (nextDay { year := 2024, month := 3, day := 10 }).UnixMilli)) = true :=
  (GetFiles_uploaded_before_covers_day (fun _ _ _ => true)
    { exampleListReq with uploaded_before := "2024-03-10" }
    { year := 2024, month := 3, day := 10 } (sizedRecord "s2000" 2000 1710072000000)
    (by decide)).2.2.2.2 (by decide) (by decide)

/-- C9, amended: a record uploaded on calendar day D is included in a listing with
uploaded_before set to D, and in a listing with uploaded_before set to the following
day, whenever the database answers and the record matches the other parameters. -/
theorem GetFiles_uploaded_before_includes_own_day
    (regexMatch : String → String → String → Bool) (s : Store) (r : File)
    (q q' : ListReq) (t t' : Time)
    (hr : r ∈ s.db)
    (hday : t.UnixMilli ≤ r.UploadedAt ∧ r.UploadedAt < t.UnixMilli + 86400000)
    (ht : timeParse q.uploaded_before = some t)
    (ht' : timeParse q'.uploaded_before = some t') (hnext : t' = nextDay t)
    (hrest : matchesFilter regexMatch (buildFilter { q with uploaded_before := "" }) r = true)
    (hrest' : matchesFilter regexMatch (buildFilter { q' with uploaded_before := "" }) r = true)
    (hdb : q.findErr = false ∧ q.decodeErr = false)
    (hdb' : q'.findErr = false ∧ q'.decodeErr = false) :
    r ∈ listed (GetFiles regexMatch s q).2 ∧ r ∈ listed (GetFiles regexMatch s q').2 := by
  have key : ∀ (p : ListReq) (u : Time), timeParse p.uploaded_before = some u →
      r.UploadedAt < (nextDay u).UnixMilli →
      matchesFilter regexMatch (buildFilter { p with uploaded_before := "" }) r = true →
      p.findErr = false → p.decodeErr = false → r ∈ listed (GetFiles regexMatch s p).2 := by
    intro p u hu hlt hm hf hd
    have hmatch := (buildFilter_uploaded_before regexMatch p u r hu).2.2
      ⟨by rw [(nextDay_UnixMilli hu).1]; exact hlt, hm⟩
    simp only [GetFiles, hf, hd, listed, sortByUploadedAtDesc, Bool.false_eq_true, if_false]
    rw [(List.perm_insertionSort _ _).mem_iff]
    exact List.mem_filter.2 ⟨hr, hmatch⟩
  have e := (nextDay_UnixMilli ht).2
  have e' := (nextDay_UnixMilli ht').2
  constructor
  · exact key q t ht (by rw [e]; exact hday.2) hrest hdb.1 hdb.2
  · refine key q' t' ht' ?_ hrest' hdb'.1 hdb'.2
    rw [e', hnext, e]
    omega


/-- Witness of C9, amended: the record uploaded at noon on 2024-03-10 under
uploaded_before=2024-03-10 and under uploaded_before=2024-03-11. -/
theorem GetFiles_uploaded_before_includes_own_day_witness :
    sizedRecord "s2000" 2000 1710072000000
        ∈ listed (GetFiles (fun _ _ _ => true) sizeExampleStore
            { exampleListReq with uploaded_before := "2024-03-10" }).2
      ∧ sizedRecord "s2000" 2000 1710072000000
        ∈ listed (GetFiles (fun _ _ _ => true) sizeExampleStore
            { exampleListReq with uploaded_before := "2024-03-11" }).2 :=
  GetFiles_uploaded_before_includes_own_day (fun _ _ _ => true) sizeExampleStore
    (sizedRecord "s2000" 2000 1710072000000)
    { exampleListReq with uploaded_before := "2024-03-10" }
    { exampleListReq with uploaded_before := "2024-03-11" }
    { year := 2024, month := 3, day := 10 } { year := 2024, month := 3, day := 11 }
    (by decide) (by decide) (by decide) (by decide) (by decide) (by decide) (by decide)
    (by decide) (by decide)

/-- Counterexample to C9 as stated: the 2000-byte record was uploaded at noon UTC on
2024-03-10, and the listing with uploaded_before=2024-03-10 contains it. -/
theorem uploaded_before_own_day_counterexample :
    (timeParse "2024-03-10").map Time.UnixMilli = some 1710028800000
      ∧ (1710028800000 : Int) ≤ (sizedRecord "s2000" 2000 1710072000000).UploadedAt
      ∧ (sizedRecord "s2000" 2000 1710072000000).UploadedAt < 1710028800000 + 86400000
      ∧ sizedRecord "s2000" 2000 1710072000000
        ∈ listed (GetFiles (fun _ _ _ => true) sizeExampleStore
            { exampleListReq with uploaded_before := "2024-03-10" }).2 := by
  decide

/-! ## Authentication gate -/

/-- C10: on every route of the protected group (list, upload, delete), a request without
Authorization header, or whose token does not parse or is not valid, is answered 401
with the store unchanged, and the answer is the same whatever handler is wrapped, so the
wrapped handler is not run; otherwise the answer is that of the wrapped file handler,
run with the user name in the request context. -/
theorem JwtAuthentication_gates_file_routes (cfg : Config) (sum : Bytes → Bytes)
    (regexMatch : String → String → String → Bool)
    (parseWithClaims : String → String → Token) (rt : Route) (r : Request) (s : Store)
    (hrt : rt ∈ protectedRoutes cfg sum regexMatch parseWithClaims) :
    ((protectedRoutes cfg sum regexMatch parseWithClaims).map (fun x => (x.method, x.pattern))
        = [("GET", "/api/files/"), ("POST", "/api/files/"), ("DELETE", "/api/files/{id}/")])
      ∧ ((r.authorization = ""
            ∨ (parseWithClaims (TrimPrefix r.authorization "Bearer ") cfg.JWTSecret).err = true
            ∨ (parseWithClaims (TrimPrefix r.authorization "Bearer ") cfg.JWTSecret).Valid = false) →
          (rt.handler r s).1 = s ∧ (rt.handler r s).2.status = 401
            ∧ ∀ next : Handler, JwtAuthentication cfg parseWithClaims next r s = rt.handler r s)
      ∧ (¬ (r.authorization = ""
            ∨ (parseWithClaims (TrimPrefix r.authorization "Bearer ") cfg.JWTSecret).err = true
            ∨ (parseWithClaims (TrimPrefix r.authorization "Bearer ") cfg.JWTSecret).Valid = false) →
          ∃ rt0 ∈ fileRoutes cfg sum regexMatch,
            rt0.method = rt.method ∧ rt0.pattern = rt.pattern
              ∧ rt.handler r s = rt0.handler
                { r with username := (some (parseWithClaims
                    (TrimPrefix r.authorization "Bearer ") cfg.JWTSecret).Username) }
                s) := by
  obtain ⟨rt0, hrt0, rfl⟩ := List.mem_map.1 hrt
  refine ⟨rfl, ?_, ?_⟩
  · intro hbad
    have hgen : ∀ next : Handler, JwtAuthentication cfg parseWithClaims next r s
        = (s, if r.authorization = "" then httpError "Authorization header required" 401
              else httpError "Invalid token" 401) := by
      intro next
      unfold JwtAuthentication
      by_cases h0 : r.authorization = ""
      · simp [h0]
      · rcases hbad with h | h | h
        · exact absurd h h0
        · simp [h0, h]
        · simp [h0, h]
    refine ⟨?_, ?_, ?_⟩
    · show (JwtAuthentication cfg parseWithClaims rt0.handler r s).1 = s
      rw [hgen]
    · show (JwtAuthentication cfg parseWithClaims rt0.handler r s).2.status = 401
      rw [hgen]
      by_cases h0 : r.authorization = "" <;> simp [h0, httpError]
    · intro next
      show _ = JwtAuthentication cfg parseWithClaims rt0.handler r s
      rw [hgen, hgen]
  · intro hgood
    push_neg at hgood
    obtain ⟨h0, h1, h2⟩ := hgood
    refine ⟨rt0, hrt0, rfl, rfl, ?_⟩
    show JwtAuthentication cfg parseWithClaims rt0.handler r s = _
    unfold JwtAuthentication
    have h1' : (parseWithClaims (TrimPrefix r.authorization "Bearer ") cfg.JWTSecret).err = false := by
      simpa using h1
    have h2' : (parseWithClaims (TrimPrefix r.authorization "Bearer ") cfg.JWTSecret).Valid = true := by
      simpa using h2
    simp [h0, h1', h2']


/-- Witness of C10: an upload without Authorization header on the protected POST route
leaves the empty store empty. -/
theorem JwtAuthentication_gates_file_routes_witness :
    (JwtAuthentication exampleConfig exampleParser
        (fun r s => UploadFile exampleConfig exampleSum s r.upload)
        (exampleRequest "") Store.empty).1 = Store.empty :=
  ((JwtAuthentication_gates_file_routes exampleConfig exampleSum (fun _ _ _ => true)
      exampleParser
      { method := "POST", pattern := "/api/files/"
        handler := JwtAuthentication exampleConfig exampleParser
          (fun r s => UploadFile exampleConfig exampleSum s r.upload) }
      (exampleRequest "") Store.empty
      (List.mem_map.2 ⟨_, List.mem_cons_of_mem _ (List.mem_cons_self _ _), rfl⟩)).2.1
    (Or.inl rfl)).1


/-! ## Failed writes -/

/-- C11, amended: for an upload of new content (parsed, hashed, no record found with
its hash), when os.Create fails the store is as it was before the request; when io.Copy
fails after n bytes no record is inserted and the answer is 500, but the destination
file stays on disk holding the first n bytes, every other file being untouched. -/
theorem UploadFile_failed_write_leaves_partial_file (cfg : Config) (sum : Bytes → Bytes)
    (s : Store) (q : UploadReq) (hd : FileHeader) (file : ReadSeeker)
    (hp : q.parseErr = false) (hf : q.formFile = some (hd, file))
    (hseek : file.seekErr = false) (hread : file.readErr = false)
    (hnew : q.findErr = true ∨ findOneByHash s.db (digest sum file.data) = none) :
    (q.createErr = true →
        UploadFile cfg sum s q = (s, httpError "Could not save file" 500))
      ∧ (q.createErr = false → ∀ n, q.copyErr = some n →
          (UploadFile cfg sum s q).1.db = s.db
          ∧ (UploadFile cfg sum s q).1.fs
              = s.fs.writeFile (uploadPath cfg q.uuidFile hd.Filename) (file.data.take n)
          ∧ (UploadFile cfg sum s q).1.fs.read (uploadPath cfg q.uuidFile hd.Filename)
              = some (file.data.take n)
          ∧ (∀ p, p ≠ uploadPath cfg q.uuidFile hd.Filename →
              (UploadFile cfg sum s q).1.fs.read p = s.fs.read p)
          ∧ (UploadFile cfg sum s q).2 = httpError "Could not save file" 500) := by
  have hfind : (if q.findErr = true then none else findOneByHash s.db (hexEncode (sum file.data)))
      = none := by
    rcases hnew with h | h
    · simp [h]
    · simp only [digest] at h
      simp [h]
  constructor
  · intro hc
    unfold UploadFile
    simp only [hp, hf, Bool.false_eq_true, if_false, calculateFileHash_ok sum file hseek hread,
      hfind, hc, if_true]
  · intro hc n hn
    have e : UploadFile cfg sum s q
        = ({ s with fs := (s.fs.writeFile (uploadPath cfg q.uuidFile hd.Filename)
              (file.data.take n)) }, httpError "Could not save file" 500) := by
      unfold UploadFile
      simp only [hp, hf, Bool.false_eq_true, if_false, calculateFileHash_ok sum file hseek hread,
        hfind, hc, hn, ReadSeeker.readAll, hread, List.drop_zero]
    rw [e]
    refine ⟨rfl, rfl, ?_, ?_, rfl⟩
    · simp [FS.read_writeFile]
    · intro p hne
      simp [FS.read_writeFile, hne]

/-- Witness of C11, amended: the copy of `[1, 2]` breaks after one byte. -/
theorem UploadFile_failed_write_leaves_partial_file_witness :
    (UploadFile exampleConfig exampleSum Store.empty
        { exampleUpload "a.txt" [1, 2] "u1" "i1" with copyErr := some 1 }).1.fs
      = Store.empty.fs.writeFile (uploadPath exampleConfig "u1" "a.txt") ([1, 2].take 1) :=
  ((UploadFile_failed_write_leaves_partial_file exampleConfig exampleSum Store.empty
      { exampleUpload "a.txt" [1, 2] "u1" "i1" with copyErr := some 1 }
      { Filename := "a.txt", ContentType := "text/plain", Size := 2 }
      { data := [1, 2], pos := 0, seekErr := false, readErr := false }
      rfl rfl rfl rfl (Or.inr (by decide))).2 rfl 1 rfl).2.1

/-- Counterexample to C11 as stated: the upload of the new content `[1, 2]` into the empty
store whose copy fails after one byte is answered 500 and inserts no record, yet the
destination path holds the one-byte file `[1]`: the filesystem is not as it was. -/
theorem UploadFile_failed_write_counterexample :
    UploadFile exampleConfig exampleSum Store.empty
        { exampleUpload "a.txt" [1, 2] "u1" "i1" with copyErr := some 1 }
      = ({ db := [], fs := [("uploads/u1.txt", [1])] }, httpError "Could not save file" 500)
    ∧ ({ db := [], fs := [("uploads/u1.txt", [1])] } : Store).fs.read "uploads/u1.txt" = some [1]
    ∧ Store.empty.fs.read "uploads/u1.txt" = none := by
  decide


/-! ## Paths -/

theorem extScan_no_slash (cs acc : List Char) (hacc : ∀ c ∈ acc, c ≠ '/') :
    ∀ c ∈ extScan cs acc, c ≠ '/' := by
  induction cs generalizing acc with
  | nil => intro c hc; cases hc
  | cons x xs ih =>
    unfold extScan
    by_cases h1 : x = '/'
    · simp [h1]
    · by_cases h2 : x = '.'
      · simp only [h1, h2, if_false, if_true]
        intro c hc
        rcases List.mem_cons.1 hc with rfl | hc
        · decide
        · exact hacc c hc
      · simp only [h1, h2, if_false]
        apply ih
        intro c hc
        rcases List.mem_cons.1 hc with rfl | hc
        · exact h1
        · exact hacc c hc

theorem filepathExt_no_slash (path : String) : ∀ c ∈ (filepathExt path).data, c ≠ '/' :=
  extScan_no_slash _ [] (fun c hc => by cases hc)

theorem splitSlash_ne_nil (cs : List Char) : splitSlash cs ≠ [] := by
  cases cs with
  | nil => simp [splitSlash]
  | cons c cs =>
    unfold splitSlash
    by_cases h : c = '/'
    · simp [h]
    · simp only [h, if_false]
      cases splitSlash cs <;> simp

theorem splitSlash_single (n : List Char) (hn : ∀ c ∈ n, c ≠ '/') : splitSlash n = [n] := by
  induction n with
  | nil => rfl
  | cons c cs ih =>
    have hc : c ≠ '/' := hn c (List.mem_cons_self _ _)
    have := ih (fun x hx => hn x (List.mem_cons_of_mem _ hx))
    simp [splitSlash, hc, this]

theorem splitSlash_append (a b : List Char) :
    splitSlash (a ++ '/' :: b) = splitSlash a ++ splitSlash b := by
  induction a with
  | nil => simp [splitSlash]
  | cons c cs ih =>
    by_cases h : c = '/'
    · simp [splitSlash, h, ih]
    · have hne := splitSlash_ne_nil cs
      cases hs : splitSlash cs with
      | nil => exact absurd hs hne
      | cons e es => simp [splitSlash, h, ih, hs]

theorem splitSlash_no_slash (cs : List Char) : ∀ e ∈ splitSlash cs, ∀ c ∈ e, c ≠ '/' := by
  induction cs with
  | nil => intro e he c hc; simp [splitSlash] at he; subst he; cases hc
  | cons x xs ih =>
    intro e he c hc
    unfold splitSlash at he
    by_cases h : x = '/'
    · simp only [h, if_true] at he
      rcases List.mem_cons.1 he with rfl | he
      · cases hc
      · exact ih e he c hc
    · simp only [h, if_false] at he
      cases hs : splitSlash xs with
      | nil => exact absurd hs (splitSlash_ne_nil xs)
      | cons e' es =>
        rw [hs] at he ih
        simp only at he
        rcases List.mem_cons.1 he with rfl | he
        · rcases List.mem_cons.1 hc with rfl | hc
          · exact h
          · exact ih e' (List.mem_cons_self _ _) c hc
        · exact ih e (List.mem_cons_of_mem _ he) c hc

/-- What `filepath.Clean` keeps: non-empty elements other than `.`, free of slashes. -/
theorem cleanStep_kept (rooted : Bool) (stack : List (List Char)) (e : List Char)
    (P : List Char → Prop) (hs : ∀ x ∈ stack, P x) (he : e ≠ [] → e ≠ ['.'] → P e) :
    ∀ x ∈ cleanStep rooted stack e, P x := by
  unfold cleanStep
  by_cases h1 : e = [] ∨ e = ['.']
  · simp only [h1, if_true]; exact hs
  · have h1' : e ≠ [] ∧ e ≠ ['.'] := by
      constructor
      · intro h; exact h1 (Or.inl h)
      · intro h; exact h1 (Or.inr h)
    simp only [h1, if_false]
    have hPe := he h1'.1 h1'.2
    by_cases h2 : e = ['.', '.']
    · simp only [h2, if_true]
      cases stack with
      | nil =>
        cases rooted
        · intro x hx
          simp only [Bool.false_eq_true, if_false, List.mem_singleton] at hx
          subst hx; rw [← h2]; exact hPe
        · intro x hx; simp at hx
      | cons top rest =>
        simp only
        by_cases h3 : top = ['.', '.']
        · simp only [h3, if_true]
          intro x hx
          rcases List.mem_cons.1 hx with rfl | hx
          · rw [← h2]; exact hPe
          · rw [← h3] at hx; exact hs x hx
        · simp only [h3, if_false]
          intro x hx
          exact hs x (List.mem_cons_of_mem _ hx)
    · simp only [h2, if_false]
      intro x hx
      rcases List.mem_cons.1 hx with rfl | hx
      · exact hPe
      · exact hs x hx

theorem cleanFold_kept (rooted : Bool) (P : List Char → Prop) (es : List (List Char)) :
    ∀ stack : List (List Char), (∀ x ∈ stack, P x) →
      (∀ e ∈ es, e ≠ [] → e ≠ ['.'] → P e) →
      ∀ x ∈ es.foldl (cleanStep rooted) stack, P x := by
  induction es with
  | nil => intro stack hs _; exact hs
  | cons e es ih =>
    intro stack hs he
    simp only [List.foldl_cons]
    apply ih
    · exact cleanStep_kept rooted stack e P hs (he e (List.mem_cons_self _ _))
    · intro e' he'; exact he e' (List.mem_cons_of_mem _ he')

theorem joinSlash_append_singleton (l : List (List Char)) (n : List Char) (hl : l ≠ []) :
    joinSlash (l ++ [n]) = joinSlash l ++ '/' :: n := by
  induction l with
  | nil => exact absurd rfl hl
  | cons e es ih =>
    cases es with
    | nil => simp [joinSlash]
    | cons e' es' =>
      have := ih (by simp)
      simp only [List.cons_append] at this ⊢
      simp only [joinSlash, this, List.append_assoc, List.cons_append]

theorem joinSlash_head (l : List (List Char)) (hl : l ≠ [])
    (hP : ∀ e ∈ l, e ≠ [] ∧ e ≠ ['.'] ∧ ∀ c ∈ e, c ≠ '/') :
    joinSlash l ≠ [] ∧ joinSlash l ≠ ['.'] ∧ joinSlash l ≠ ['/'] := by
  cases l with
  | nil => exact absurd rfl hl
  | cons e es =>
    obtain ⟨h1, h2, h3⟩ := hP e (List.mem_cons_self _ _)
    cases e with
    | nil => exact absurd rfl h1
    | cons c cs =>
      have hc : c ≠ '/' := h3 c (List.mem_cons_self _ _)
      cases es with
      | nil =>
        simp only [joinSlash]
        refine ⟨by simp, h2, ?_⟩
        intro h
        simp only [List.cons.injEq] at h
        exact hc h.1
      | cons e' es' =>
        simp only [joinSlash, List.cons_append]
        refine ⟨by simp, ?_, ?_⟩
        · intro h
          simp only [List.cons.injEq, List.append_eq_nil, and_false, reduceCtorEq] at h
        · intro h
          simp only [List.cons.injEq] at h
          exact hc h.1


theorem cleanStep_push (rooted : Bool) (stack : List (List Char)) (n : List Char)
    (h0 : n ≠ []) (h1 : n ≠ ['.']) (h2 : n ≠ ['.', '.']) :
    cleanStep rooted stack n = n :: stack := by
  simp [cleanStep, h0, h1, h2]

theorem filepathClean_single (n : List Char) (hslash : ∀ c ∈ n, c ≠ '/')
    (h0 : n ≠ []) (h1 : n ≠ ['.']) (h2 : n ≠ ['.', '.']) :
    filepathClean ⟨n⟩ = ⟨n⟩ := by
  have hroot : decide (n.head? = some '/') = false := by
    cases n with
    | nil => exact absurd rfl h0
    | cons c cs =>
      have := hslash c (List.mem_cons_self _ _)
      simp [this]
  simp only [filepathClean, h0, if_false, hroot, splitSlash_single n hslash, List.foldl_cons,
    List.foldl_nil, cleanStep_push false [] n h0 h1 h2, List.reverse_singleton, joinSlash,
    Bool.false_eq_true]

theorem filepathClean_entry (d n : List Char) (hd : d ≠ []) (hslash : ∀ c ∈ n, c ≠ '/')
    (h0 : n ≠ []) (h1 : n ≠ ['.']) (h2 : n ≠ ['.', '.']) :
    filepathClean ⟨d ++ '/' :: n⟩ = dirEntry (filepathClean ⟨d⟩) ⟨n⟩ := by
  have hne : d ++ '/' :: n ≠ [] := by simp
  have hhead : (d ++ '/' :: n).head? = d.head? := by
    cases d with
    | nil => exact absurd rfl hd
    | cons c cs => rfl
  have hkept : ∀ x ∈ (splitSlash d).foldl (cleanStep (decide (d.head? = some '/'))) [],
      x ≠ [] ∧ x ≠ ['.'] ∧ ∀ c ∈ x, c ≠ '/' := by
    apply cleanFold_kept _ (fun x => x ≠ [] ∧ x ≠ ['.'] ∧ ∀ c ∈ x, c ≠ '/')
    · intro x hx; cases hx
    · intro e he he0 he1
      exact ⟨he0, he1, splitSlash_no_slash d e he⟩
  simp only [filepathClean, hne, hd, if_false, hhead, splitSlash_append,
    splitSlash_single n hslash, List.foldl_append, List.foldl_cons, List.foldl_nil,
    cleanStep_push _ _ n h0 h1 h2, List.reverse_cons]
  generalize hst : (splitSlash d).foldl (cleanStep (decide (d.head? = some '/'))) [] = st
    at hkept
  have hdot : ("." : String) = ⟨['.']⟩ := rfl
  have hsl : ("/" : String) = ⟨['/']⟩ := rfl
  by_cases hst0 : st = []
  · subst hst0
    by_cases hr : d.head? = some '/'
    · simp [hr, joinSlash, dirEntry, hdot, hsl, String.ext_iff]
    · simp [hr, joinSlash, dirEntry, h0, hdot, String.ext_iff]
  · have hrev : st.reverse ≠ [] := by simpa using hst0
    have hk : ∀ e ∈ st.reverse, e ≠ [] ∧ e ≠ ['.'] ∧ ∀ c ∈ e, c ≠ '/' :=
      fun e he => hkept e (List.mem_reverse.1 he)
    obtain ⟨j0, j1, j2⟩ := joinSlash_head st.reverse hrev hk
    rw [joinSlash_append_singleton _ _ hrev]
    by_cases hr : d.head? = some '/'
    · simp [hr, dirEntry, hdot, hsl, String.ext_iff, j0]
    · simp [hr, dirEntry, hdot, hsl, String.ext_iff, j0, j1, j2]

theorem filepathJoin_entry (dir name : String) (hslash : ∀ c ∈ name.data, c ≠ '/')
    (h0 : name.data ≠ []) (h1 : name.data ≠ ['.']) (h2 : name.data ≠ ['.', '.']) :
    filepathJoin dir name = dirEntry (filepathClean dir) name := by
  obtain ⟨d⟩ := dir
  obtain ⟨n⟩ := name
  simp only at hslash h0 h1 h2
  have hdot : ("." : String) = ⟨['.']⟩ := rfl
  unfold filepathJoin
  by_cases hd : d = []
  · subst hd
    have e1 : ((⟨[]⟩ : String) ≠ "") = False := by simp [String.ext_iff]
    have e2 : ((⟨n⟩ : String) ≠ "") = True := by simp [String.ext_iff, h0]
    simp only [e1, e2, if_false, if_true, filepathClean_single n hslash h0 h1 h2]
    simp [filepathClean, dirEntry]
  · have e1 : ((⟨d⟩ : String) ≠ "") = True := by simp [String.ext_iff, hd]
    simp only [e1, if_true]
    have : (⟨d⟩ : String) ++ "/" ++ ⟨n⟩ = ⟨d ++ '/' :: n⟩ := by
      simp [String.ext_iff, String.data_append]
    rw [this]
    exact filepathClean_entry d n hd hslash h0 h1 h2


theorem isUUID_shape {u : String} (h : isUUID u = true) :
    u.data.length = 36 ∧ ∀ c ∈ u.data, c ≠ '/' := by
  simp only [isUUID, Bool.and_eq_true, decide_eq_true_eq, List.all_eq_true, Bool.or_eq_true] at h
  obtain ⟨⟨⟨⟨⟨hlen, hall⟩, -⟩, -⟩, -⟩, -⟩ := h
  refine ⟨hlen, ?_⟩
  intro c hc hcs
  subst hcs
  rcases hall _ hc with h | h
  · revert h; decide
  · revert h; decide

/-- C13: for every client-supplied file name, the physical file UploadFile creates for
new content is named by the UUID followed by filepath.Ext of the file name; that
extension, and so the whole name, contains no path separator; the path created is the
entry of that name directly inside the cleaned upload directory; the file written there
holds the uploaded bytes and the stored File field is a slash followed by that path. -/
theorem UploadFile_new_file_in_upload_dir (cfg : Config) (sum : Bytes → Bytes) (s : Store)
    (q : UploadReq) (hd : FileHeader) (file : ReadSeeker)
    (hf : q.formFile = some (hd, file)) (hok : q.noFault = true)
    (hnew : findOneByHash s.db (digest sum file.data) = none)
    (hid : ∀ g ∈ s.db, g.ID ≠ q.uuidID) (huuid : isUUID q.uuidFile = true) :
    (∀ c ∈ (filepathExt hd.Filename).data, c ≠ '/')
      ∧ (∀ c ∈ (q.uuidFile ++ filepathExt hd.Filename).data, c ≠ '/')
      ∧ uploadPath cfg q.uuidFile hd.Filename
          = dirEntry (filepathClean cfg.UploadDir) (q.uuidFile ++ filepathExt hd.Filename)
      ∧ (UploadFile cfg sum s q).1.fs
          = s.fs.writeFile
              (dirEntry (filepathClean cfg.UploadDir) (q.uuidFile ++ filepathExt hd.Filename))
              file.data
      ∧ (UploadFile cfg sum s q).1.db
          = s.db ++ [newRecord q hd
              ("/" ++ dirEntry (filepathClean cfg.UploadDir)
                (q.uuidFile ++ filepathExt hd.Filename)) (digest sum file.data)]
      ∧ (UploadFile cfg sum s q).2
          = { status := 201
              body := .file (newRecord q hd
                ("/" ++ dirEntry (filepathClean cfg.UploadDir)
                  (q.uuidFile ++ filepathExt hd.Filename)) (digest sum file.data)) } := by
  obtain ⟨hlen, huslash⟩ := isUUID_shape huuid
  have hext := filepathExt_no_slash hd.Filename
  have hname : ∀ c ∈ (q.uuidFile ++ filepathExt hd.Filename).data, c ≠ '/' := by
    intro c hc
    rw [String.data_append] at hc
    rcases List.mem_append.1 hc with h | h
    · exact huslash c h
    · exact hext c h
  have hlen' : 36 ≤ (q.uuidFile ++ filepathExt hd.Filename).data.length := by
    rw [String.data_append, List.length_append, hlen]; omega
  have hpath : uploadPath cfg q.uuidFile hd.Filename
      = dirEntry (filepathClean cfg.UploadDir) (q.uuidFile ++ filepathExt hd.Filename) := by
    unfold uploadPath
    apply filepathJoin_entry _ _ hname
    · intro h; rw [h] at hlen'; simp at hlen'
    · intro h; rw [h] at hlen'; simp at hlen'
    · intro h; rw [h] at hlen'; simp at hlen'
  have e := UploadFile_noFault cfg sum s q hd file hf hok
  rw [hnew] at e
  simp only at e
  rw [insertMetadata_ok _ _ (by simpa [newRecord] using hid), hpath] at e
  refine ⟨hext, hname, hpath, ?_, ?_, ?_⟩ <;> rw [e]

/-- Witness of C13: the new content `[1, 2]` uploaded under a name with `..` segments and
separators. -/
theorem UploadFile_new_file_in_upload_dir_witness :
    uploadPath exampleConfig "123e4567-e89b-12d3-a456-426614174000" "../../etc/cron.d/job.sh"
      = dirEntry (filepathClean exampleConfig.UploadDir)
          ("123e4567-e89b-12d3-a456-426614174000" ++ filepathExt "../../etc/cron.d/job.sh") :=
  (UploadFile_new_file_in_upload_dir exampleConfig exampleSum Store.empty
    (exampleUpload "../../etc/cron.d/job.sh" [1, 2] "123e4567-e89b-12d3-a456-426614174000" "i1")
    { Filename := "../../etc/cron.d/job.sh", ContentType := "text/plain", Size := 2 }
    { data := [1, 2], pos := 0, seekErr := false, readErr := false }
    rfl (by decide) (by decide) (by intro g hg; cases hg) (by decide)).2.2.1


/-! ## Goroutines: a request served without interruption -/

theorem FS.writeFile_writeFile (fs : FS) (p : String) (a b : Bytes) :
    (fs.writeFile p a).writeFile p b = fs.writeFile p b := by
  simp [FS.writeFile, List.filter_filter]

theorem uploadSteps_eq (cfg : Config) (sum : Bytes → Bytes) (s : Store) (q : UploadReq) :
    Thread.steps cfg sum 4 s (.upload q .start)
      = ((UploadFile cfg sum s q).1, .upload q (.done (UploadFile cfg sum s q).2)) := by
  unfold UploadFile
  simp only [Thread.steps, Thread.step]
  by_cases hp : q.parseErr = true
  · simp [uploadStep, hp]
  cases hf : q.formFile with
  | none => simp [uploadStep, hp, hf]
  | some hf' =>
    obtain ⟨hd, file⟩ := hf'
    by_cases hs : file.seekErr = true
    · simp [uploadStep, hp, hf, calculateFileHash, ReadSeeker.seekStart, hs]
    by_cases hr : file.readErr = true
    · simp [uploadStep, hp, hf, calculateFileHash, ReadSeeker.seekStart, ReadSeeker.readAll, hs, hr]
    have hh := calculateFileHash_ok sum file (by simpa using hs) (by simpa using hr)
    cases hfind : (if q.findErr = true then none else findOneByHash s.db (hexEncode (sum file.data))) with
    | some e => simp [uploadStep, hp, hf, hh, hfind]
    | none =>
      by_cases hc : q.createErr = true
      · simp [uploadStep, hp, hf, hh, hfind, hc]
      cases hcp : q.copyErr with
      | some n =>
        simp [uploadStep, hp, hf, hh, hfind, hc, hcp, ReadSeeker.readAll, hr,
          FS.writeFile_writeFile]
      | none =>
        simp [uploadStep, hp, hf, hh, hfind, hc, hcp, ReadSeeker.readAll, hr,
          FS.writeFile_writeFile]

theorem deleteSteps_eq (s : Store) (q : DeleteReq) (cfg : Config) (sum : Bytes → Bytes) :
    Thread.steps cfg sum 4 s (.delete q .start)
      = ((DeleteFile s q).1, .delete q (.done (DeleteFile s q).2)) := by
  unfold DeleteFile
  simp only [Thread.steps, Thread.step]
  by_cases hid : q.id = ""
  · simp [deleteStep, hid]
  cases hfind : (if q.findErr = true then none else findOneByID s.db q.id) with
  | none => simp [deleteStep, hid, hfind]
  | some r =>
    by_cases hd : q.deleteErr = true
    · simp [deleteStep, hid, hfind, hd]
    by_cases hc : q.countErr = true
    · simp [deleteStep, hid, hfind, hd, hc]
    by_cases h0 : countDocuments (deleteOne s.db q.id) r.Hash = 0
    · simp [deleteStep, hid, hfind, hd, hc, h0]
    · simp [deleteStep, hid, hfind, hd, hc, h0]

theorem threadSteps_start (cfg : Config) (sum : Bytes → Bytes) (s : Store) (req : Req) :
    Thread.steps cfg sum 4 s (Thread.start req)
      = (step cfg sum s req, Thread.finished req (respond cfg sum s req)) := by
  cases req with
  | upload q => exact uploadSteps_eq cfg sum s q
  | delete q => exact deleteSteps_eq s q cfg sum


theorem interleave_replicate_at (cfg : Config) (sum : Bytes → Bytes) (pre rest : List Thread)
    (n : Nat) : ∀ (s : Store) (t : Thread),
      interleave cfg sum (s, pre ++ t :: rest) (List.replicate n pre.length)
        = ((Thread.steps cfg sum n s t).1, pre ++ (Thread.steps cfg sum n s t).2 :: rest) := by
  induction n with
  | zero => intro s t; rfl
  | succ n ih =>
    intro s t
    have hget : (pre ++ t :: rest).get? pre.length = some t := by
      rw [List.get?_eq_getElem?, List.getElem?_append_right (Nat.le_refl _)]
      simp
    have hset : ∀ t', (pre ++ t :: rest).set pre.length t' = pre ++ t' :: rest := by
      intro t'; simp [List.set_append_right]
    have h1 : schedStep cfg sum (s, pre ++ t :: rest) pre.length
        = ((t.step cfg sum s).1, pre ++ (t.step cfg sum s).2 :: rest) := by
      simp only [schedStep, hget, hset]
    simp only [interleave, List.replicate_succ, List.foldl_cons, h1]
    exact ih _ _

theorem interleave_serial (cfg : Config) (sum : Bytes → Bytes) (reqs : List Req) :
    ∀ (pre : List Thread) (s : Store),
      interleave cfg sum (s, pre ++ reqs.map Thread.start)
          (serialSchedule pre.length reqs.length)
        = (run cfg sum s reqs, pre ++ served cfg sum s reqs) := by
  induction reqs with
  | nil => intro pre s; simp [serialSchedule, interleave, run, served]
  | cons req rest ih =>
    intro pre s
    have hsched : serialSchedule pre.length (req :: rest).length
        = List.replicate 4 pre.length ++ serialSchedule (pre ++ [Thread.finished req
            (respond cfg sum s req)]).length rest.length := by
      simp [serialSchedule, List.range'_succ]
    rw [hsched]
    simp only [interleave, List.foldl_append, List.map_cons]
    have h4 := interleave_replicate_at cfg sum pre (rest.map Thread.start) 4 s (Thread.start req)
    simp only [interleave] at h4
    rw [h4, threadSteps_start]
    have := ih (pre ++ [Thread.finished req (respond cfg sum s req)]) (step cfg sum s req)
    simp only [interleave, List.append_assoc, List.singleton_append] at this
    rw [this]
    simp [run, served]

/-- C12, amended: when the requests are served one at a time (the steps of different
requests are not interleaved) and every upload draws fresh UUIDs, the store ends as the
handlers leave it one after the other, every request is answered, and no record is left
without its physical file: every record points to a file on disk whose digest is the
hash of the record. -/
theorem serial_requests_keep_referenced_files (cfg : Config) (sum : Bytes → Bytes)
    (reqs : List Req) (hfresh : freshRun cfg sum Store.empty reqs = true) :
    (interleave cfg sum (Store.empty, reqs.map Thread.start)
        (serialSchedule 0 reqs.length)).1 = run cfg sum Store.empty reqs
      ∧ (interleave cfg sum (Store.empty, reqs.map Thread.start)
          (serialSchedule 0 reqs.length)).2 = served cfg sum Store.empty reqs
      ∧ dangling (interleave cfg sum (Store.empty, reqs.map Thread.start)
          (serialSchedule 0 reqs.length)).1 = []
      ∧ Consistent sum (interleave cfg sum (Store.empty, reqs.map Thread.start)
          (serialSchedule 0 reqs.length)).1 := by
  have h := interleave_serial cfg sum reqs [] Store.empty
  simp only [List.nil_append, List.length_nil] at h
  have hc := Consistent_run cfg sum reqs Store.empty (Consistent_empty sum) hfresh
  rw [h]
  refine ⟨rfl, rfl, ?_, hc⟩
  simp only [dangling, List.filter_eq_nil_iff]
  intro r hr
  obtain ⟨c, hc', -⟩ := hc r hr
  simp [hc']

/-- Witness of C12, amended: an upload of `[1, 2]`, a second upload of the same content
and a delete of the first record, served one after the other. -/
theorem serial_requests_keep_referenced_files_witness :
    dangling (interleave exampleConfig exampleSum
        (Store.empty,
          [Req.upload (exampleUpload "a.txt" [1, 2] "u1" "i1"),
           Req.upload (exampleUpload "b.txt" [1, 2] "u2" "i2"),
           Req.delete (exampleDelete "i1")].map Thread.start)
        (serialSchedule 0 [Req.upload (exampleUpload "a.txt" [1, 2] "u1" "i1"),
           Req.upload (exampleUpload "b.txt" [1, 2] "u2" "i2"),
           Req.delete (exampleDelete "i1")].length)).1 = [] :=
  (serial_requests_keep_referenced_files exampleConfig exampleSum
    [Req.upload (exampleUpload "a.txt" [1, 2] "u1" "i1"),
     Req.upload (exampleUpload "b.txt" [1, 2] "u2" "i2"),
     Req.delete (exampleDelete "i1")] (by decide)).2.2.1

/-- Counterexample to C12 as stated: the record `i1` is the only one for the content
`[1, 2]`; an upload of the same content and a delete of `i1` run concurrently. The
upload looks the hash up and finds `i1`; the delete finds `i1`, deletes it and counts no
record with its hash; the upload inserts `i2` pointing to the file of `i1`; the delete
removes that file. Both requests succeed, and the surviving record `i2` has lost its
physical file. -/
theorem concurrent_delete_upload_counterexample :
    dangling raceStore = []
      ∧ interleave exampleConfig exampleSum (raceStore, raceThreads) [0, 1, 1, 1, 0]
          = ({ db := [{ exampleRecord with ID := "i2", OriginalFilename := "b.txt" }]
               fs := [("uploads/u1.txt", [1, 2])] },
             [Thread.upload (exampleUpload "b.txt" [1, 2] "u2" "i2")
                (.done { status := 201
                         body := .file
                           { exampleRecord with ID := "i2", OriginalFilename := "b.txt" } }),
              Thread.delete (exampleDelete "i1") (.remove exampleRecord)])
      ∧ (interleave exampleConfig exampleSum (raceStore, raceThreads) [0, 1, 1, 1, 0, 1]).1
          = { db := [{ exampleRecord with ID := "i2", OriginalFilename := "b.txt" }], fs := [] }
      ∧ (interleave exampleConfig exampleSum (raceStore, raceThreads) [0, 1, 1, 1, 0, 1]).2.map
            Thread.response
          = [some { status := 201
                    body := .file
                      { exampleRecord with ID := "i2", OriginalFilename := "b.txt" } },
             some { status := 204, body := .empty }]
      ∧ dangling (interleave exampleConfig exampleSum (raceStore, raceThreads)
            [0, 1, 1, 1, 0, 1]).1
          = [{ exampleRecord with ID := "i2", OriginalFilename := "b.txt" }] := by
  decide


end FileHub
